import Mathlib

/-!
# go-indeps: the dependency graph and the type-shape decomposer

A shallow embedding of `indeps/graph.go` and of `addTypeEdges` from
`indeps/analyze.go`.

Go maps are embedded as finite maps with unique keys and no order
(`Finmap`); the set idiom `map[Node]existence` is a `Finset Node`. Iteration
over a map ("in no particular order") is embedded as an order-free traversal
of the key set. A write through a missing inner map (`m[a][b] = v` with
`m[a]` absent, a run-time panic in Go) is an explicit error result.

The slices returned by `Nodes` and `Edges` are embedded as finite sets: their
order is unspecified in the source and they never hold an element twice
(`NodesSlice` and `EdgesSlice` keep the multiplicities). A value of
`types.Type` is embedded as a finite tree in which a named type is a leaf;
`TypeHeap` keeps the references between type objects, for the question of
termination. Every graph starts from `NewGraph()`; the zero `Graph` with nil
maps and the nil `Node` are not embedded.

Of `analyze`, `addDefEdges` and `addFuncEdges` the embedding keeps what they
read: the kinds and declared names of the declarations, the body of a function
declaration (nil, or its identifier nodes in the order of `ast.Walk`), and the
tables of the type checker as lookup functions, with the type values given by
their finite unfoldings. An error that `analyze` returns and a panic are told
apart.
-/

namespace Indeps

/-- The four concrete implementations of the interface `Node` (graph.go,
lines 110-124); each wraps the declared symbol name. Interface equality in Go
compares the dynamic type and the value, which is the derived equality here. -/
inductive Node where
  | Function (name : String)
  | Type_ (name : String)
  | Constant (name : String)
  | Variable (name : String)
  deriving DecidableEq, Repr

/-- The struct `Edge` (graph.go, lines 13-16). -/
structure Edge where
  From : Node
  To : Node
  deriving DecidableEq, Repr

/-- The adjacency maps `map[Node]map[Node]existence`. -/
abbrev Adjacency := Finmap (fun _ : Node => Finset Node)

/-- The struct `Graph` (graph.go, lines 7-11). -/
structure Graph where
  nodes : Finset Node
  edgesOut : Adjacency
  edgesIn : Adjacency
  deriving DecidableEq

/-- The run-time failures of the embedded code. -/
inductive Panic where
  /-- An assignment to an entry of a nil map. -/
  | nilMapWrite
  /-- The default branch of the type switch in `addTypeEdges`. -/
  | unsupportedTypeKind
  /-- The default branch of the type switch in `addDefEdges`. -/
  | unsupportedDefinitionObject
  /-- A type assertion `x.(T)` on a value that is not a `T`. -/
  | typeAssertion
  /-- A field read through a nil pointer. -/
  | nilDereference
  deriving DecidableEq, Repr

/-- The constructor `NewGraph` (graph.go, lines 18-24). -/
def NewGraph : Graph :=
  { nodes := ∅, edgesOut := ∅, edgesIn := ∅ }

namespace Graph

/-- The method `AddNode` (graph.go, lines 31-38). -/
def AddNode (g : Graph) (n : Node) : Graph :=
  if n ∈ g.nodes then g
  else
    { nodes := insert n g.nodes
      edgesOut := g.edgesOut.insert n ∅
      edgesIn := g.edgesIn.insert n ∅ }

/-- The method `RemoveNode` (graph.go, lines 41-45). -/
def RemoveNode (g : Graph) (n : Node) : Graph :=
  { nodes := g.nodes.erase n
    edgesIn := g.edgesIn.erase n
    edgesOut := g.edgesOut.erase n }

/-- The statement `m[a][b] = exists` on an adjacency map: the inner map
`m[a]` is read and, when present, written in place; when `m[a]` is absent it
reads as a nil map and the assignment panics. -/
def setEntry (m : Adjacency) (a b : Node) : Except Panic Adjacency :=
  match m.lookup a with
  | none => .error .nilMapWrite
  | some inner => .ok (m.insert a (insert b inner))

/-- The method `AddEdge` (graph.go, lines 49-59). -/
def AddEdge (g : Graph) (from_ to_ : Node) : Except Panic Graph :=
  if from_ = to_ then .ok g
  else
    let g1 := (g.AddNode from_).AddNode to_
    match setEntry g1.edgesOut from_ to_ with
    | .error p => .error p
    | .ok out =>
      match setEntry g1.edgesIn to_ from_ with
      | .error p => .error p
      | .ok inn => .ok { g1 with edgesOut := out, edgesIn := inn }

/-- The statement `delete(m[a], b)` on an adjacency map: deleting from an
absent (nil) inner map is a no-op. -/
def deleteEntry (m : Adjacency) (a b : Node) : Adjacency :=
  match m.lookup a with
  | none => m
  | some inner => m.insert a (inner.erase b)

/-- The method `RemoveEdge` (graph.go, lines 63-66). -/
def RemoveEdge (g : Graph) (from_ to_ : Node) : Graph :=
  { g with
    edgesOut := deleteEntry g.edgesOut from_ to_
    edgesIn := deleteEntry g.edgesIn to_ from_ }

/-- The body of the loop of `RemoveDisconnectedNodes` (graph.go, lines
72-76) for the node `n`: `hasOut` and `hasIn` are the presence of the key `n`
in the two adjacency maps. -/
def pruneStep (n : Node) (g : Graph) : Graph :=
  let hasOut := decide (n ∈ g.edgesOut)
  let hasIn := decide (n ∈ g.edgesIn)
  if !(hasIn || hasOut) then g.RemoveNode n else g

/-- The order in which `RemoveDisconnectedNodes` visits the nodes does not
matter: the loop body for one node reads and deletes only that node's own
keys. -/
instance pruneStep_leftComm : LeftCommutative pruneStep where
  left_comm a b g := by
    by_cases hab : a = b
    · subst hab; rfl
    · have hba : b ≠ a := fun h => hab h.symm
      by_cases h1 : a ∈ g.edgesOut <;> by_cases h2 : a ∈ g.edgesIn <;>
        by_cases h3 : b ∈ g.edgesOut <;> by_cases h4 : b ∈ g.edgesIn <;>
        simp [pruneStep, RemoveNode, Finmap.mem_erase, h1, h2, h3, h4, hab, hba,
          Finset.erase_right_comm, Finmap.erase_erase]

/-- The method `RemoveDisconnectedNodes` (graph.go, lines 70-78): the loop
body runs once for every key of `nodes` (the body only ever deletes the key
being visited, so the keys visited are those present at the start). -/
def RemoveDisconnectedNodes (g : Graph) : Graph :=
  Multiset.foldr pruneStep g g.nodes.val

/-- The method `HasNode` (graph.go, lines 82-85). -/
def HasNode (g : Graph) (n : Node) : Bool :=
  decide (n ∈ g.nodes)

/-- The method `Nodes` (graph.go, lines 88-94): the keys of `nodes`, in no
particular order. -/
def Nodes (g : Graph) : Finset Node :=
  g.nodes

/-- The method `Edges` (graph.go, lines 97-108): for every key `fromNode` of
`edgesOut` and every `toNode` of its target set, the edge
`(fromNode, toNode)`, in no particular order. -/
def Edges (g : Graph) : Finset Edge :=
  g.edgesOut.keys.biUnion fun fromNode =>
    ((g.edgesOut.lookup fromNode).getD ∅).image fun toNode =>
      { From := fromNode, To := toNode }

end Graph

/-- A package object `*types.Package`, compared by identity; the identity is
embedded as the import path, which names one package object per load. -/
structure Package where
  path : String
  deriving DecidableEq, Repr

/-- The values of `types.Type` that reach `addTypeEdges`, unfolded into a
finite tree, as far as the function looks at them. A named type carries the
package and the name of its declaring object (`Obj().Pkg()`, which is nil for
the named types of the universe scope, and `Obj().Name()`); its underlying
type is never read, so it is a leaf. A struct carries its field types
(`Field(i).Type()`), an interface the types `Embedded(i)` for
`i < NumEmbeddeds()` and the types `Method(i).Type()` for `i < NumMethods()`,
a signature its parameter types, its result types and the type of its
receiver when it has one. `Tuple` is a `types.Type` that the type switch has
no case for.

A type value that contains itself without passing through a named type, such
as an interface literal with a method, has no finite unfolding and is no
value of `GoType`: what is stated of `addTypeEdges` over `GoType` is stated of
the type values that unfold finitely. `TypeHeap` and `addTypeEdgesFuel` below
embed the type values as Go holds them, and `unfoldAt` relates the two. -/
inductive GoType where
  | Named (pkg : Option Package) (name : String)
  | Struct (fields : List GoType)
  | Interface (embeddeds : List GoType) (methods : List GoType)
  | Signature (params : List GoType) (results : List GoType) (recv : Option GoType)
  | Map (key : GoType) (elem : GoType)
  | Slice (elem : GoType)
  | Pointer (elem : GoType)
  | Array (elem : GoType)
  | Chan (elem : GoType)
  | Basic (name : String)
  | Tuple (vars : List GoType)

mutual

/-- The function `addTypeEdges` (analyze.go, lines 167-224). The argument
`pkg *loader.PackageInfo` is only passed along by the source and is left
out. -/
def addTypeEdges (fromNode : Node) (fromPkg : Option Package) :
    GoType → Graph → Except Panic Graph
  | .Named toPkg name, g =>
    if fromPkg = toPkg then g.AddEdge fromNode (Node.Type_ name) else .ok g
  | .Struct fields, g => addTypeEdgesEach fromNode fromPkg fields g
  | .Interface embeddeds methods, g =>
    match addTypeEdgesEach fromNode fromPkg embeddeds g with
    | .error p => .error p
    | .ok g1 => addTypeEdgesEach fromNode fromPkg methods g1
  | .Signature params results recv, g =>
    match addTypeEdgesEach fromNode fromPkg params g with
    | .error p => .error p
    | .ok g1 =>
      match addTypeEdgesEach fromNode fromPkg results g1 with
      | .error p => .error p
      | .ok g2 => addTypeEdgesRecv fromNode fromPkg recv g2
  | .Map key elem, g =>
    match addTypeEdges fromNode fromPkg key g with
    | .error p => .error p
    | .ok g1 => addTypeEdges fromNode fromPkg elem g1
  | .Slice elem, g => addTypeEdges fromNode fromPkg elem g
  | .Pointer elem, g => addTypeEdges fromNode fromPkg elem g
  | .Array elem, g => addTypeEdges fromNode fromPkg elem g
  | .Chan elem, g => addTypeEdges fromNode fromPkg elem g
  | .Basic _, g => .ok g
  | .Tuple _, _ => .error .unsupportedTypeKind

/-- The loops `for i := 0; i < n; i++ { addTypeEdges(..., t_i, ...) }` of
`addTypeEdges` over the fields, embeddeds, methods, parameters and results. -/
def addTypeEdgesEach (fromNode : Node) (fromPkg : Option Package) :
    List GoType → Graph → Except Panic Graph
  | [], g => .ok g
  | t :: ts, g =>
    match addTypeEdges fromNode fromPkg t g with
    | .error p => .error p
    | .ok g1 => addTypeEdgesEach fromNode fromPkg ts g1

/-- The statement `if tt.Recv() != nil { addTypeEdges(..., tt.Recv().Type(),
...) }` of `addTypeEdges`. -/
def addTypeEdgesRecv (fromNode : Node) (fromPkg : Option Package) :
    Option GoType → Graph → Except Panic Graph
  | none, g => .ok g
  | some t, g => addTypeEdges fromNode fromPkg t g

end

mutual

/-- The named types that occur in a type value, as the specification of the
type-shape decomposer lists them: the type itself when it is named (its
underlying type is not entered), else the named types reached through struct
fields, interface embeddeds and method signatures, signature parameters,
results and receiver, map key and value, and slice, array, pointer and
channel elements. Each is given as the package and the name of its object. -/
def namedTypes : GoType → List (Option Package × String)
  | .Named pkg name => [(pkg, name)]
  | .Struct fields => namedTypesEach fields
  | .Interface embeddeds methods => namedTypesEach embeddeds ++ namedTypesEach methods
  | .Signature params results recv =>
    namedTypesEach params ++ namedTypesEach results ++ namedTypesRecv recv
  | .Map key elem => namedTypes key ++ namedTypes elem
  | .Slice elem => namedTypes elem
  | .Pointer elem => namedTypes elem
  | .Array elem => namedTypes elem
  | .Chan elem => namedTypes elem
  | .Basic _ => []
  | .Tuple _ => []

/-- The named types that occur in the types of a list. -/
def namedTypesEach : List GoType → List (Option Package × String)
  | [] => []
  | t :: ts => namedTypes t ++ namedTypesEach ts

/-- The named types that occur in the type of an optional receiver. -/
def namedTypesRecv : Option GoType → List (Option Package × String)
  | none => []
  | some t => namedTypes t

end

mutual

/-- A type value built only from the shapes named, struct, interface,
signature, map, slice, array, pointer, channel and basic. -/
def supported : GoType → Bool
  | .Named _ _ => true
  | .Struct fields => supportedEach fields
  | .Interface embeddeds methods => supportedEach embeddeds && supportedEach methods
  | .Signature params results recv =>
    supportedEach params && supportedEach results && supportedRecv recv
  | .Map key elem => supported key && supported elem
  | .Slice elem => supported elem
  | .Pointer elem => supported elem
  | .Array elem => supported elem
  | .Chan elem => supported elem
  | .Basic _ => true
  | .Tuple _ => false

/-- Every type of the list is built only from the ten shapes. -/
def supportedEach : List GoType → Bool
  | [] => true
  | t :: ts => supported t && supportedEach ts

/-- The type of the receiver, when there is one, is built only from the ten
shapes. -/
def supportedRecv : Option GoType → Bool
  | none => true
  | some t => supported t

end

/-- The graphs that the exported interface can build: `NewGraph()` followed by
any sequence of the mutating methods. A call of `AddEdge` that panics yields
no graph. -/
inductive Reachable : Graph → Prop where
  | newGraph : Reachable NewGraph
  | addNode {g : Graph} (n : Node) : Reachable g → Reachable (g.AddNode n)
  | addEdge {g g1 : Graph} (a b : Node) :
    Reachable g → g.AddEdge a b = .ok g1 → Reachable g1
  | removeEdge {g : Graph} (a b : Node) : Reachable g → Reachable (g.RemoveEdge a b)
  | removeNode {g : Graph} (n : Node) : Reachable g → Reachable (g.RemoveNode n)
  | removeDisconnectedNodes {g : Graph} :
    Reachable g → Reachable g.RemoveDisconnectedNodes

/-- The three maps of the graph have the same keys. -/
def Graph.Sync (g : Graph) : Prop :=
  ∀ n, (n ∈ g.edgesOut ↔ n ∈ g.nodes) ∧ (n ∈ g.edgesIn ↔ n ∈ g.nodes)

/-- The edges of `g1` are those of `g` and the edges from `fromNode` to
`Type(name)` for the names listed with the package `fromPkg`, the edge from
`fromNode` to itself left out. -/
def EdgesAdded (fromNode : Node) (fromPkg : Option Package)
    (names : List (Option Package × String)) (g g1 : Graph) : Prop :=
  ∀ e : Edge, e ∈ g1.Edges ↔
    e ∈ g.Edges ∨
      (e.From = fromNode ∧
        ∃ name, (fromPkg, name) ∈ names ∧ e.To = Node.Type_ name ∧ Node.Type_ name ≠ fromNode)

/-- The graph that `NewGraph()` followed by `AddEdge(Type("A"), Type("B"))`
builds: both nodes, `B` in the out-set of `A` and `A` in the in-set of `B`. -/
def abGraph : Graph :=
  { nodes := {Node.Type_ "B", Node.Type_ "A"}
    edgesOut := (Finmap.singleton (Node.Type_ "B") ∅).insert (Node.Type_ "A") {Node.Type_ "B"}
    edgesIn := (Finmap.singleton (Node.Type_ "A") ∅).insert (Node.Type_ "B") {Node.Type_ "A"} }

/-- The underlying type of the declaration
`type A struct { b B; next *A; c q.C; n int }` of a package `p`. -/
def listNodeType : GoType :=
  .Struct
    [ .Named (some ⟨"p"⟩) "B"
    , .Pointer (.Named (some ⟨"p"⟩) "A")
    , .Named (some ⟨"q"⟩) "C"
    , .Basic "int" ]

/-- The slice that `Nodes` returns, with its multiplicities and without its
order: one `append` for every key of `nodes`. -/
def Graph.NodesSlice (g : Graph) : Multiset Node :=
  g.nodes.val

/-- The slice that `Edges` returns, with its multiplicities and without its
order: one `append` for every entry `(fromNode, targets)` of `edgesOut` and
every key `toNode` of `targets`. -/
def Graph.EdgesSlice (g : Graph) : Multiset Edge :=
  g.edgesOut.entries.bind fun entry =>
    entry.2.val.map fun toNode => { From := entry.1, To := toNode }

/-- The methods `String` of the four node types (graph.go, lines 131-160):
`fmt.Sprintf("func %s", string(n))` and its three siblings. -/
def Node.String : Node → String
  | .Function n => "func " ++ n
  | .Type_ n => "type " ++ n
  | .Constant n => "const " ++ n
  | .Variable n => "var " ++ n

/-- An insertion into the graph: a call of `AddNode` or of `AddEdge`. -/
inductive InsertOp where
  | addNode (n : Node)
  | addEdge (a b : Node)

/-- The call that an insertion stands for. -/
def InsertOp.apply : InsertOp → Graph → Except Panic Graph
  | .addNode n, g => .ok (g.AddNode n)
  | .addEdge a b, g => g.AddEdge a b

/-- One call after another; a panic of the first call ends the run. -/
def andThen (r : Except Panic Graph) (f : Graph → Except Panic Graph) : Except Panic Graph :=
  match r with
  | .error p => .error p
  | .ok g => f g

/-- The out-set of a node, empty when the node has none. -/
def Graph.outOf (g : Graph) (n : Node) : Finset Node :=
  (g.edgesOut.lookup n).getD ∅

/-- The in-set of a node, empty when the node has none. -/
def Graph.inOf (g : Graph) (n : Node) : Finset Node :=
  (g.edgesIn.lookup n).getD ∅

/-- The nodes that an insertion makes sure of. -/
def InsertOp.nodes : InsertOp → Finset Node
  | .addNode n => {n}
  | .addEdge a b => if a = b then ∅ else {a, b}

/-- What an insertion puts into the out-set of the node `x`. -/
def InsertOp.out : InsertOp → Node → Finset Node
  | .addNode _, _ => ∅
  | .addEdge a b, x => if a ≠ b ∧ x = a then {b} else ∅

/-- What an insertion puts into the in-set of the node `x`. -/
def InsertOp.inn : InsertOp → Node → Finset Node
  | .addNode _, _ => ∅
  | .addEdge a b, x => if a ≠ b ∧ x = b then {a} else ∅

/-! ## The analysis of a package

The syntax tree and the tables of the type checker are embedded as far as
`analyze` reads them. -/

/-- An identifier node `*ast.Ident`: its identity, which keys the tables of
the type checker, and its `Name`. -/
structure Ident where
  id : Nat
  Name : String
  deriving DecidableEq, Repr

/-- The keyword `Tok` of a general declaration. -/
inductive Token where
  | IMPORT
  | CONST
  | TYPE
  | VAR
  deriving DecidableEq, Repr

/-- The values of `ast.Spec`: the three spec nodes, of which `analyze` reads
the declared names, and `Other` for a value that is none of them. -/
inductive Spec where
  | ValueSpec (Names : List Ident)
  | TypeSpec (Name : Ident)
  | ImportSpec
  | Other

/-- A function declaration `*ast.FuncDecl`: `Recv` tells whether the field
`Recv` is not nil; `Body` is `none` when the field `Body` is nil (a function
declared without a body) and else lists the identifier nodes that `ast.Walk`
visits in the body, in its order. -/
structure FuncDecl where
  Recv : Bool
  Name : Ident
  Body : Option (List Ident)

/-- The values of `ast.Decl`. -/
inductive Decl where
  | GenDecl (Tok : Token) (Specs : List Spec)
  | FuncDecl (td : FuncDecl)
  | BadDecl

/-- The dynamic type of a `types.Object`, as far as the code tells them
apart. -/
inductive ObjectKind where
  | Const
  | Var
  | TypeName
  | Func
  | Other
  deriving DecidableEq, Repr

/-- An object of the type checker: its kind and the results of `Name()`,
`Pkg()`, `Type()` and `Type().Underlying()`. -/
structure Object where
  kind : ObjectKind
  Name : String
  Pkg : Option Package
  Type_ : GoType
  Underlying : GoType

/-- The parts of `*loader.PackageInfo` that `analyze` reads: the declarations
of every file, and the tables `Types` (reduced to the recorded type), `Defs`,
`Uses` and `Implicits`, read at identifier nodes only. An absent key and a
nil object both read as `none`. The type values are given by their finite
unfoldings: a package with a type value that has none, because it contains
itself without passing through a named type, is no value of `PackageInfo`. -/
structure PackageInfo where
  Files : List (List Decl)
  Types : Ident → Option GoType
  Defs : Ident → Option Object
  Uses : Ident → Option Object
  Implicits : Ident → Option Object

/-- A loop `for _, x := range xs { ... }` whose body may leave the function
early (by `return` or by a panic), with the reason `e`. -/
def forEach {α ε : Type} (body : α → Graph → Except ε Graph) :
    List α → Graph → Except ε Graph
  | [], g => .ok g
  | x :: xs, g =>
    match body x g with
    | .error e => .error e
    | .ok g1 => forEach body xs g1

/-- The function `addDefEdges` (analyze.go, lines 86-122). -/
def addDefEdges (ident : Ident) (g : Graph) (pkg : PackageInfo) : Except Panic Graph :=
  match pkg.Defs ident with
  | none => .error .unsupportedDefinitionObject
  | some to_ =>
    match to_.kind with
    | .Const => addTypeEdges (Node.Constant to_.Name) to_.Pkg to_.Type_ g
    | .Var =>
      match to_.Type_ with
      | .Named toPkg name =>
        if to_.Pkg = toPkg then g.AddEdge (Node.Variable to_.Name) (Node.Type_ name)
        else .ok g
      | _ => .ok g
    | .TypeName => addTypeEdges (Node.Type_ to_.Name) to_.Pkg to_.Underlying g
    | .Func => .ok g
    | .Other => .error .unsupportedDefinitionObject

/-- The node that `addFuncEdges` attributes a function to (analyze.go, lines
128-141): the receiver's named type, reached through one pointer at most, or
the function itself when the signature has no receiver. -/
def funcFromNode (fo : Object) : Option GoType → Except Panic Node
  | none => .ok (Node.Function fo.Name)
  | some (.Named _ name) => .ok (Node.Type_ name)
  | some (.Pointer (.Named _ name)) => .ok (Node.Type_ name)
  | some _ => .error .typeAssertion

/-- One lookup of the visitor of `addFuncEdges`: when the table has a type for
the identifier, it goes to `addTypeEdges`. -/
def addLookupEdges (fromNode : Node) (fromPkg : Option Package) (ty : Option GoType)
    (g : Graph) : Except Panic Graph :=
  match ty with
  | none => .ok g
  | some t => addTypeEdges fromNode fromPkg t g

/-- The visitor of `addFuncEdges` at an identifier node (analyze.go, lines
148-163): the lookups in `Types`, `Defs`, `Uses` and `Implicits`, in this
order. -/
def visitIdent (fromNode : Node) (fromPkg : Option Package) (pkg : PackageInfo)
    (tn : Ident) (g : Graph) : Except Panic Graph :=
  match addLookupEdges fromNode fromPkg (pkg.Types tn) g with
  | .error p => .error p
  | .ok g1 =>
    match addLookupEdges fromNode fromPkg ((pkg.Defs tn).map Object.Type_) g1 with
    | .error p => .error p
    | .ok g2 =>
      match addLookupEdges fromNode fromPkg ((pkg.Uses tn).map Object.Type_) g2 with
      | .error p => .error p
      | .ok g3 => addLookupEdges fromNode fromPkg ((pkg.Implicits tn).map Object.Type_) g3

/-- The function `addFuncEdges` (analyze.go, lines 124-165). On a nil body
`ast.Walk(visitor, f.Body)` calls the visitor on the nil block, which is not
an identifier, and then reads the statement list through the nil pointer. -/
def addFuncEdges (f : FuncDecl) (g : Graph) (pkg : PackageInfo) : Except Panic Graph :=
  match pkg.Defs f.Name with
  | none => .error .typeAssertion
  | some fo =>
    if fo.kind ≠ ObjectKind.Func then .error .typeAssertion
    else
      match fo.Type_ with
      | .Signature params results recv =>
        match funcFromNode fo recv with
        | .error p => .error p
        | .ok fromNode =>
          match addTypeEdges fromNode fo.Pkg (.Signature params results recv) g with
          | .error p => .error p
          | .ok g1 =>
            match f.Body with
            | none => .error .nilDereference
            | some body => forEach (visitIdent fromNode fo.Pkg pkg) body g1
      | _ => .error .typeAssertion

/-- The errors that `analyze` returns. -/
inductive AnalyzeError where
  | unknownSpec
  | unknownDecl
  deriving DecidableEq, Repr

/-- The ways in which a pass of `analyze` ends early: a returned error or a
panic. -/
inductive Abort where
  | returned (err : AnalyzeError)
  | panicked (p : Panic)
  deriving DecidableEq, Repr

/-- The first pass of `analyze` at one spec (analyze.go, lines 20-38). -/
def specNodes (Tok : Token) : Spec → Graph → Except AnalyzeError Graph
  | .ValueSpec Names, g =>
    .ok (Names.foldl
      (fun g ident =>
        g.AddNode (match Tok with
          | .CONST => Node.Constant ident.Name
          | _ => Node.Variable ident.Name))
      g)
  | .TypeSpec Name, g => .ok (g.AddNode (Node.Type_ Name.Name))
  | .ImportSpec, g => .ok g
  | .Other, _ => .error .unknownSpec

/-- The first pass of `analyze` at one declaration (analyze.go, lines
18-51). -/
def declNodes : Decl → Graph → Except AnalyzeError Graph
  | .GenDecl Tok Specs, g => forEach (specNodes Tok) Specs g
  | .FuncDecl td, g => .ok (if td.Recv = false then g.AddNode (Node.Function td.Name.Name) else g)
  | .BadDecl, _ => .error .unknownDecl

/-- A call whose panic ends the pass. -/
def orPanic (r : Except Panic Graph) : Except Abort Graph :=
  match r with
  | .error p => .error (.panicked p)
  | .ok g => .ok g

/-- The second pass of `analyze` at one spec (analyze.go, lines 62-73). -/
def specEdges (pkg : PackageInfo) : Spec → Graph → Except Abort Graph
  | .ValueSpec Names, g => forEach (fun ident g => orPanic (addDefEdges ident g pkg)) Names g
  | .TypeSpec Name, g => orPanic (addDefEdges Name g pkg)
  | .ImportSpec, g => .ok g
  | .Other, _ => .error (.returned .unknownSpec)

/-- The second pass of `analyze` at one declaration (analyze.go, lines
59-80). -/
def declEdges (pkg : PackageInfo) : Decl → Graph → Except Abort Graph
  | .GenDecl _ Specs, g => forEach (specEdges pkg) Specs g
  | .FuncDecl td, g => orPanic (addFuncEdges td g pkg)
  | .BadDecl, _ => .error (.returned .unknownDecl)

/-- The declaration-enumeration pass of `analyze` over all files (analyze.go,
lines 15-53), from the empty graph. -/
def enumerate (pkg : PackageInfo) : Except AnalyzeError Graph :=
  forEach (forEach declNodes) pkg.Files NewGraph

/-- The function `analyze` (analyze.go, lines 12-84). The result is the pair
that the function returns, the graph and the error, each of them nil (`none`)
or not; a panic is the error result of the embedding. -/
def analyze (pkg : PackageInfo) : Except Panic (Option Graph × Option AnalyzeError) :=
  match enumerate pkg with
  | .error err => .ok (none, some err)
  | .ok g =>
    match forEach (forEach (declEdges pkg)) pkg.Files g with
    | .error (.returned err) => .ok (none, some err)
    | .error (.panicked p) => .error p
    | .ok g1 => .ok (some g1, none)

/-- The graph `g1` has the same keys in its three maps, every edge of `g1` is
an edge of `g` or goes from `fromNode` to a `Type` node, and every node of
`g1` is a node of `g`, or `fromNode`, or a `Type` node. -/
def Grows (fromNode : Node) (g g1 : Graph) : Prop :=
  g1.Sync ∧
    (∀ e ∈ g1.Edges, e ∈ g.Edges ∨ (e.From = fromNode ∧ ∃ t, e.To = Node.Type_ t)) ∧
    (∀ n ∈ g1.nodes, n ∈ g.nodes ∨ n = fromNode ∨ ∃ t, n = Node.Type_ t)

/-- Every edge of the graph ends at a `Type` node. -/
def Graph.TypeTargets (g : Graph) : Prop :=
  ∀ e ∈ g.Edges, ∃ t, e.To = Node.Type_ t

/-- A spec that is a value, type or import spec. -/
def knownSpec : Spec → Bool
  | .Other => false
  | _ => true

/-- A declaration that is a general declaration made of value, type
and import specs, or a function declaration. -/
def knownDecl : Decl → Bool
  | .GenDecl _ Specs => Specs.all knownSpec
  | .FuncDecl _ => true
  | .BadDecl => false

/-- A package made only of value, type, import and function declarations. -/
def knownFiles (files : List (List Decl)) : Bool :=
  files.all fun decls => decls.all knownDecl

/-- The nodes that a spec declares, in the words of the specification:
`Constant(x)` for each identifier of a const declaration, `Variable(x)` for
each identifier of another value declaration, `Type(t)` for a type
declaration, nothing for an import. -/
def Spec.declares (Tok : Token) : Spec → Node → Prop
  | .ValueSpec Names, n =>
    ∃ ident ∈ Names,
      n = if Tok = Token.CONST then Node.Constant ident.Name else Node.Variable ident.Name
  | .TypeSpec Name, n => n = Node.Type_ Name.Name
  | .ImportSpec, _ => False
  | .Other, _ => False

/-- The nodes that a declaration declares, in the words of the
specification: those of its specs, `Function(f)` for a function declaration
without a receiver, nothing for one with a receiver. -/
def Decl.declares : Decl → Node → Prop
  | .GenDecl Tok Specs, n => ∃ s ∈ Specs, s.declares Tok n
  | .FuncDecl td, n => td.Recv = false ∧ n = Node.Function td.Name.Name
  | .BadDecl, _ => False

/-- The nodes that the files of a package declare. -/
def Declares (files : List (List Decl)) (n : Node) : Prop :=
  ∃ decls ∈ files, ∃ d ∈ decls, d.declares n

/-- The graph `g1` has the same keys in its three maps, the edges of `g`, and
the nodes of `g` together with the nodes that `decl` holds of. -/
def Enumerated (decl : Node → Prop) (g g1 : Graph) : Prop :=
  g1.Sync ∧ g1.Edges = g.Edges ∧ ∀ n, n ∈ g1.nodes ↔ n ∈ g.nodes ∨ decl n

/-- The package `p` of the example packages. -/
def pkgP : Option Package := some ⟨"p"⟩

/-- The object of a type `name` declared in `p` with the given underlying
type. -/
def typeObject (name : String) (underlying : GoType) : Object :=
  { kind := .TypeName, Name := name, Pkg := pkgP, Type_ := .Named pkgP name,
    Underlying := underlying }

/-- The object of a variable `name` of `p` with the given type. -/
def varObject (name : String) (ty : GoType) : Object :=
  { kind := .Var, Name := name, Pkg := pkgP, Type_ := ty, Underlying := ty }

/-- The object of a function `name` of `p` with the given signature. -/
def funcObject (name : String) (sig : GoType) : Object :=
  { kind := .Func, Name := name, Pkg := pkgP, Type_ := sig, Underlying := sig }

/-- The method declaration `func (a A) Use() { var x B; _ = x }`: its body
holds the identifiers `x` (3), `B` (4), `_` (5) and `x` (6). -/
def useDecl : FuncDecl :=
  { Recv := true, Name := ⟨2, "Use"⟩,
    Body := some [⟨3, "x"⟩, ⟨4, "B"⟩, ⟨5, "_"⟩, ⟨6, "x"⟩] }

/-- The package `type A struct { B B }; type B struct{};
func (a A) Use() { var x B; _ = x }` with the tables of the type checker. -/
def scenarioPkg : PackageInfo :=
  { Files :=
      [[ .GenDecl .TYPE [.TypeSpec ⟨0, "A"⟩]
       , .GenDecl .TYPE [.TypeSpec ⟨1, "B"⟩]
       , .FuncDecl useDecl ]]
    Types := fun i =>
      match i.id with
      | 4 => some (.Named pkgP "B")
      | 6 => some (.Named pkgP "B")
      | _ => none
    Defs := fun i =>
      match i.id with
      | 0 => some (typeObject "A" (.Struct [.Named pkgP "B"]))
      | 1 => some (typeObject "B" (.Struct []))
      | 2 => some (funcObject "Use" (.Signature [] [] (some (.Named pkgP "A"))))
      | 3 => some (varObject "x" (.Named pkgP "B"))
      | _ => none
    Uses := fun i =>
      match i.id with
      | 4 => some (typeObject "B" (.Struct []))
      | 6 => some (varObject "x" (.Named pkgP "B"))
      | _ => none
    Implicits := fun _ => none }

/-- The package `type T struct{}; var x *T` with the tables of the type
checker. -/
def varPointerPkg : PackageInfo :=
  { Files := [[.GenDecl .TYPE [.TypeSpec ⟨0, "T"⟩], .GenDecl .VAR [.ValueSpec [⟨1, "x"⟩]]]]
    Types := fun _ => none
    Defs := fun i =>
      match i.id with
      | 0 => some (typeObject "T" (.Struct []))
      | 1 => some (varObject "x" (.Pointer (.Named pkgP "T")))
      | _ => none
    Uses := fun _ => none
    Implicits := fun _ => none }

/-- A package with one type declaration `T` whose underlying type value is of
a shape that `addTypeEdges` has no case for. -/
def tuplePkg : PackageInfo :=
  { Files := [[.GenDecl .TYPE [.TypeSpec ⟨0, "T"⟩]]]
    Types := fun _ => none
    Defs := fun i =>
      match i.id with
      | 0 => some (typeObject "T" (.Tuple []))
      | _ => none
    Uses := fun _ => none
    Implicits := fun _ => none }

/-- A package whose second declaration is an `*ast.BadDecl`. -/
def badPkg : PackageInfo :=
  { Files := [[.GenDecl .TYPE [.TypeSpec ⟨0, "T"⟩], .BadDecl]]
    Types := fun _ => none
    Defs := fun i =>
      match i.id with
      | 0 => some (typeObject "T" (.Struct []))
      | _ => none
    Uses := fun _ => none
    Implicits := fun _ => none }

/-- The declarations `import "fmt"; const c = 1; var v, w int; type Foo
struct{}; func Bar() {}; func (Foo) Baz() {}`; the tables are not read by the
enumeration pass and are left empty. -/
def declsPkg : PackageInfo :=
  { Files :=
      [[ .GenDecl .IMPORT [.ImportSpec]
       , .GenDecl .CONST [.ValueSpec [⟨0, "c"⟩]]
       , .GenDecl .VAR [.ValueSpec [⟨1, "v"⟩, ⟨2, "w"⟩]]
       , .GenDecl .TYPE [.TypeSpec ⟨3, "Foo"⟩]
       , .FuncDecl { Recv := false, Name := ⟨4, "Bar"⟩, Body := some [] }
       , .FuncDecl { Recv := true, Name := ⟨5, "Baz"⟩, Body := some [] } ]]
    Types := fun _ => none
    Defs := fun _ => none
    Uses := fun _ => none
    Implicits := fun _ => none }

/-- The package `type T struct{}; var v T; func h() {};
func f() { h(); _ = v }` with the tables of the type checker: the body of `f`
holds the identifiers `h` (4), `_` (5) and `v` (6). -/
def callPkg : PackageInfo :=
  { Files :=
      [[ .GenDecl .TYPE [.TypeSpec ⟨0, "T"⟩]
       , .GenDecl .VAR [.ValueSpec [⟨1, "v"⟩]]
       , .FuncDecl { Recv := false, Name := ⟨2, "h"⟩, Body := some [] }
       , .FuncDecl { Recv := false, Name := ⟨3, "f"⟩,
                     Body := some [⟨4, "h"⟩, ⟨5, "_"⟩, ⟨6, "v"⟩] } ]]
    Types := fun i =>
      match i.id with
      | 4 => some (.Signature [] [] none)
      | 6 => some (.Named pkgP "T")
      | _ => none
    Defs := fun i =>
      match i.id with
      | 0 => some (typeObject "T" (.Struct []))
      | 1 => some (varObject "v" (.Named pkgP "T"))
      | 2 => some (funcObject "h" (.Signature [] [] none))
      | 3 => some (funcObject "f" (.Signature [] [] none))
      | _ => none
    Uses := fun i =>
      match i.id with
      | 4 => some (funcObject "h" (.Signature [] [] none))
      | 6 => some (varObject "v" (.Named pkgP "T"))
      | _ => none
    Implicits := fun _ => none }

/-- The graph that `analyze` returns for `callPkg`: the four declared nodes
and the edges `v -> T` and `f -> T`. -/
def callGraph : Graph :=
  { nodes := {Node.Function "f", Node.Function "h", Node.Variable "v", Node.Type_ "T"}
    edgesOut :=
      (((Finmap.singleton (Node.Type_ "T") ∅).insert (Node.Function "h") ∅).insert
        (Node.Variable "v") {Node.Type_ "T"}).insert (Node.Function "f") {Node.Type_ "T"}
    edgesIn :=
      (((Finmap.singleton (Node.Variable "v") ∅).insert (Node.Function "h") ∅).insert
        (Node.Function "f") ∅).insert (Node.Type_ "T") {Node.Function "f", Node.Variable "v"} }

/-! ## Type values held by reference

In Go a `types.Type` refers to its component types by pointer, so that a type
value may contain itself. `GoType` above is the unfolding of a type value
into a finite tree; the definitions below keep the references. -/

/-- A pointer to a type object. -/
abbrev TypeRef := Nat

/-- One type object: the shapes of `GoType` with the component types given by
reference. -/
inductive TypeNode where
  | Named (pkg : Option Package) (name : String)
  | Struct (fields : List TypeRef)
  | Interface (embeddeds : List TypeRef) (methods : List TypeRef)
  | Signature (params : List TypeRef) (results : List TypeRef) (recv : Option TypeRef)
  | Map (key : TypeRef) (elem : TypeRef)
  | Slice (elem : TypeRef)
  | Pointer (elem : TypeRef)
  | Array (elem : TypeRef)
  | Chan (elem : TypeRef)
  | Basic (name : String)
  | Tuple (vars : List TypeRef)

/-- The type objects in memory. -/
abbrev TypeHeap := TypeRef → TypeNode

/-- The loops of `addTypeEdges` over a list of component types, for a given
way `visit` of running the recursive call; `none` is a run that has not
finished. -/
def eachAt (visit : TypeRef → Graph → Option (Except Panic Graph)) :
    List TypeRef → Graph → Option (Except Panic Graph)
  | [], g => some (.ok g)
  | r :: rs, g =>
    match visit r g with
    | none => none
    | some (.error p) => some (.error p)
    | some (.ok g1) => eachAt visit rs g1

/-- The function `addTypeEdges` (analyze.go, lines 167-224) on a type value
held by reference. The recursion of the source has no bound; `fuel` bounds
its depth here, and the result `none` is a run that has not finished within
that depth. -/
def addTypeEdgesFuel (heap : TypeHeap) (fromNode : Node) (fromPkg : Option Package) :
    Nat → TypeRef → Graph → Option (Except Panic Graph)
  | 0, _, _ => none
  | fuel + 1, r, g =>
    match heap r with
    | .Named toPkg name =>
      some (if fromPkg = toPkg then g.AddEdge fromNode (Node.Type_ name) else .ok g)
    | .Struct fields => eachAt (addTypeEdgesFuel heap fromNode fromPkg fuel) fields g
    | .Interface embeddeds methods =>
      match eachAt (addTypeEdgesFuel heap fromNode fromPkg fuel) embeddeds g with
      | none => none
      | some (.error p) => some (.error p)
      | some (.ok g1) => eachAt (addTypeEdgesFuel heap fromNode fromPkg fuel) methods g1
    | .Signature params results recv =>
      match eachAt (addTypeEdgesFuel heap fromNode fromPkg fuel) params g with
      | none => none
      | some (.error p) => some (.error p)
      | some (.ok g1) =>
        match eachAt (addTypeEdgesFuel heap fromNode fromPkg fuel) results g1 with
        | none => none
        | some (.error p) => some (.error p)
        | some (.ok g2) =>
          match recv with
          | none => some (.ok g2)
          | some rt => addTypeEdgesFuel heap fromNode fromPkg fuel rt g2
    | .Map key elem =>
      match addTypeEdgesFuel heap fromNode fromPkg fuel key g with
      | none => none
      | some (.error p) => some (.error p)
      | some (.ok g1) => addTypeEdgesFuel heap fromNode fromPkg fuel elem g1
    | .Slice elem => addTypeEdgesFuel heap fromNode fromPkg fuel elem g
    | .Pointer elem => addTypeEdgesFuel heap fromNode fromPkg fuel elem g
    | .Array elem => addTypeEdgesFuel heap fromNode fromPkg fuel elem g
    | .Chan elem => addTypeEdgesFuel heap fromNode fromPkg fuel elem g
    | .Basic _ => some (.ok g)
    | .Tuple _ => some (.error .unsupportedTypeKind)

/-- The unfolding of a list of references, for a given unfolding `visit` of
one reference. -/
def unfoldEach (visit : TypeRef → Option GoType) : List TypeRef → Option (List GoType)
  | [] => some []
  | r :: rs =>
    match visit r, unfoldEach visit rs with
    | some t, some ts => some (t :: ts)
    | _, _ => none

/-- The unfolding of a type value into a tree of depth at most `fuel`, the
named types being leaves; `none` when the value is deeper, which is the case
for every `fuel` when it contains itself without passing a named type. -/
def unfoldAt (heap : TypeHeap) : Nat → TypeRef → Option GoType
  | 0, _ => none
  | fuel + 1, r =>
    match heap r with
    | .Named pkg name => some (.Named pkg name)
    | .Struct fields => (unfoldEach (unfoldAt heap fuel) fields).map .Struct
    | .Interface embeddeds methods =>
      match unfoldEach (unfoldAt heap fuel) embeddeds, unfoldEach (unfoldAt heap fuel) methods with
      | some es, some ms => some (.Interface es ms)
      | _, _ => none
    | .Signature params results recv =>
      match unfoldEach (unfoldAt heap fuel) params, unfoldEach (unfoldAt heap fuel) results with
      | some ps, some rs =>
        match recv with
        | none => some (.Signature ps rs none)
        | some rt => (unfoldAt heap fuel rt).map fun t => .Signature ps rs (some t)
      | _, _ => none
    | .Map key elem =>
      match unfoldAt heap fuel key, unfoldAt heap fuel elem with
      | some k, some e => some (.Map k e)
      | _, _ => none
    | .Slice elem => (unfoldAt heap fuel elem).map .Slice
    | .Pointer elem => (unfoldAt heap fuel elem).map .Pointer
    | .Array elem => (unfoldAt heap fuel elem).map .Array
    | .Chan elem => (unfoldAt heap fuel elem).map .Chan
    | .Basic name => some (.Basic name)
    | .Tuple vars => (unfoldEach (unfoldAt heap fuel) vars).map .Tuple

/-- The type value of `interface{ M() }`: the interface (0) has the method
`M`, whose signature (1) has the interface itself as the type of its receiver
(`Signature.Recv` of go/types: for an abstract method the receiver is the
enclosing interface, as a `*Named` or as an `*Interface`). -/
def anonInterfaceHeap : TypeHeap := fun r =>
  match r with
  | 0 => .Interface [] [1]
  | 1 => .Signature [] [] (some 0)
  | _ => .Basic "invalid"

/-- The underlying type of `type A struct { next *A }` in package `p`: the
struct (0), the pointer (1) and the named type `A` (2), whose underlying type
is the struct again and is not part of the value read. -/
def selfStructHeap : TypeHeap := fun r =>
  match r with
  | 0 => .Struct [1]
  | 1 => .Pointer 2
  | 2 => .Named pkgP "A"
  | _ => .Basic "invalid"

/-! ## The packages on which extraction meets no failure -/

/-- The underlying type of `type A struct { b B; next *A; c q.C; n int }` of
package `p` as Go holds it: the struct (0) and its four field types, of which
the pointer (2) refers to the named type `A` (3). -/
def listNodeHeap : TypeHeap := fun r =>
  match r with
  | 0 => .Struct [1, 2, 4, 5]
  | 1 => .Named (some ⟨"p"⟩) "B"
  | 2 => .Pointer 3
  | 3 => .Named (some ⟨"p"⟩) "A"
  | 4 => .Named (some ⟨"q"⟩) "C"
  | _ => .Basic "int"

/-! ## Lemmas on the graph operations -/

namespace Graph

theorem hasNode_iff (g : Graph) (n : Node) : g.HasNode n = true ↔ n ∈ g.nodes := by
  simp [HasNode]

theorem mem_Edges (g : Graph) (e : Edge) :
    e ∈ g.Edges ↔ ∃ ts, g.edgesOut.lookup e.From = some ts ∧ e.To ∈ ts := by
  unfold Edges
  simp only [Finset.mem_biUnion, Finset.mem_image, Finmap.mem_keys]
  constructor
  · rintro ⟨a, ha, b, hb, rfl⟩
    obtain ⟨ts, hts⟩ := Finmap.mem_iff.mp ha
    refine ⟨ts, hts, ?_⟩
    simpa [hts] using hb
  · rintro ⟨ts, hts, hmem⟩
    refine ⟨e.From, Finmap.mem_of_lookup_eq_some hts, e.To, ?_, rfl⟩
    simpa [hts] using hmem

theorem AddNode_of_mem {g : Graph} {n : Node} (h : n ∈ g.nodes) : g.AddNode n = g := by
  simp [AddNode, h]

theorem mem_nodes_AddNode (g : Graph) (n m : Node) :
    m ∈ (g.AddNode n).nodes ↔ m = n ∨ m ∈ g.nodes := by
  unfold AddNode
  split
  · constructor
    · exact Or.inr
    · rintro (rfl | h)
      · assumption
      · exact h
  · simp

theorem Sync_NewGraph : NewGraph.Sync := by
  intro n; simp [NewGraph, Finmap.not_mem_empty]

theorem Sync_AddNode {g : Graph} (hs : g.Sync) (n : Node) : (g.AddNode n).Sync := by
  unfold AddNode
  split
  · exact hs
  · intro m
    simp [Finmap.mem_insert, (hs m).1, (hs m).2]

theorem Sync_RemoveNode {g : Graph} (hs : g.Sync) (n : Node) : (g.RemoveNode n).Sync := by
  intro m
  simp [RemoveNode, Finmap.mem_erase, (hs m).1, (hs m).2]

theorem mem_deleteEntry (m : Adjacency) (a b x : Node) :
    x ∈ deleteEntry m a b ↔ x ∈ m := by
  unfold deleteEntry
  split
  · rfl
  · rename_i inner h
    simp only [Finmap.mem_insert]
    constructor
    · rintro (rfl | h1)
      · exact Finmap.mem_of_lookup_eq_some h
      · exact h1
    · exact Or.inr

theorem Sync_RemoveEdge {g : Graph} (hs : g.Sync) (a b : Node) : (g.RemoveEdge a b).Sync := by
  intro m
  simp [RemoveEdge, mem_deleteEntry, (hs m).1, (hs m).2]

theorem foldr_pruneStep_eq (g : Graph) (s : Multiset Node)
    (h : ∀ n ∈ s, n ∈ g.edgesOut ∨ n ∈ g.edgesIn) : Multiset.foldr pruneStep g s = g := by
  induction s using Multiset.induction with
  | empty => rfl
  | cons a s ih =>
    rw [Multiset.foldr_cons, ih fun n hn => h n (Multiset.mem_cons_of_mem hn)]
    have := h a (Multiset.mem_cons_self a s)
    unfold pruneStep
    rcases this with h1 | h1 <;> simp [h1]

theorem RemoveDisconnectedNodes_of_Sync {g : Graph} (hs : g.Sync) :
    g.RemoveDisconnectedNodes = g :=
  foldr_pruneStep_eq g g.nodes.val fun n hn => Or.inl ((hs n).1.mpr hn)

theorem Edges_AddNode {g : Graph} (hs : g.Sync) (n : Node) :
    (g.AddNode n).Edges = g.Edges := by
  by_cases hn : n ∈ g.nodes
  · rw [AddNode_of_mem hn]
  · have hnone : g.edgesOut.lookup n = none :=
      Finmap.lookup_eq_none.mpr fun h => hn ((hs n).1.mp h)
    ext e
    rw [mem_Edges, mem_Edges]
    simp only [AddNode, hn, if_false]
    by_cases he : e.From = n
    · rw [he, Finmap.lookup_insert, hnone]; simp
    · rw [Finmap.lookup_insert_of_ne _ he]

theorem AddEdge_self (g : Graph) (n : Node) : g.AddEdge n n = .ok g := by
  simp [AddEdge]

/-- On a graph whose maps have the same keys, `AddEdge` between two different
nodes does not panic, and its result is the graph after the two `AddNode`
calls with `to_` put into the out-set of `from_` and `from_` into the in-set
of `to_`. -/
theorem AddEdge_eq {g : Graph} (hs : g.Sync) {a b : Node} (hab : a ≠ b) :
    ∃ o i, ((g.AddNode a).AddNode b).edgesOut.lookup a = some o ∧
      ((g.AddNode a).AddNode b).edgesIn.lookup b = some i ∧
      g.AddEdge a b = .ok
        { nodes := ((g.AddNode a).AddNode b).nodes
          edgesOut := ((g.AddNode a).AddNode b).edgesOut.insert a (insert b o)
          edgesIn := ((g.AddNode a).AddNode b).edgesIn.insert b (insert a i) } := by
  have hs1 : ((g.AddNode a).AddNode b).Sync := Sync_AddNode (Sync_AddNode hs a) b
  have ha : a ∈ ((g.AddNode a).AddNode b).nodes := by
    rw [mem_nodes_AddNode, mem_nodes_AddNode]; exact Or.inr (Or.inl rfl)
  have hb : b ∈ ((g.AddNode a).AddNode b).nodes := by
    rw [mem_nodes_AddNode]; exact Or.inl rfl
  obtain ⟨o, ho⟩ := Finmap.mem_iff.mp ((hs1 a).1.mpr ha)
  obtain ⟨i, hi⟩ := Finmap.mem_iff.mp ((hs1 b).2.mpr hb)
  refine ⟨o, i, ho, hi, ?_⟩
  simp [AddEdge, hab, setEntry, ho, hi]

theorem Sync_AddEdge {g g1 : Graph} (hs : g.Sync) {a b : Node}
    (h : g.AddEdge a b = .ok g1) : g1.Sync := by
  by_cases hab : a = b
  · subst hab
    rw [AddEdge_self] at h
    cases h; exact hs
  · obtain ⟨o, i, ho, hi, heq⟩ := AddEdge_eq hs hab
    rw [heq] at h
    cases h
    have hs1 : ((g.AddNode a).AddNode b).Sync := Sync_AddNode (Sync_AddNode hs a) b
    intro m
    have hma : m = a → m ∈ ((g.AddNode a).AddNode b).nodes := by
      rintro rfl; exact (hs1 _).1.mp (Finmap.mem_of_lookup_eq_some ho)
    have hmb : m = b → m ∈ ((g.AddNode a).AddNode b).nodes := by
      rintro rfl; exact (hs1 _).2.mp (Finmap.mem_of_lookup_eq_some hi)
    simp only [Finmap.mem_insert, (hs1 m).1, (hs1 m).2]
    exact ⟨⟨fun h => h.elim hma id, Or.inr⟩, ⟨fun h => h.elim hmb id, Or.inr⟩⟩

theorem mem_nodes_AddEdge {g g1 : Graph} (hs : g.Sync) {a b : Node} (hab : a ≠ b)
    (h : g.AddEdge a b = .ok g1) (m : Node) :
    m ∈ g1.nodes ↔ m ∈ g.nodes ∨ m = a ∨ m = b := by
  obtain ⟨o, i, ho, hi, heq⟩ := AddEdge_eq hs hab
  rw [heq] at h
  cases h
  simp only [mem_nodes_AddNode]
  tauto

theorem mem_Edges_AddEdge {g g1 : Graph} (hs : g.Sync) {a b : Node} (hab : a ≠ b)
    (h : g.AddEdge a b = .ok g1) (e : Edge) :
    e ∈ g1.Edges ↔ e ∈ g.Edges ∨ e = ⟨a, b⟩ := by
  obtain ⟨o, i, ho, hi, heq⟩ := AddEdge_eq hs hab
  rw [heq] at h
  cases h
  have hE : g.Edges = ((g.AddNode a).AddNode b).Edges := by
    rw [Edges_AddNode (Sync_AddNode hs a), Edges_AddNode hs]
  rw [hE, mem_Edges, mem_Edges]
  obtain ⟨f, t⟩ := e
  simp only [Edge.mk.injEq]
  by_cases hf : f = a
  · subst hf
    rw [Finmap.lookup_insert, ho]
    simp only [Option.some.injEq, exists_eq_left', Finset.mem_insert, true_and]
    tauto
  · rw [Finmap.lookup_insert_of_ne _ hf]
    simp [hf]

theorem mem_Edges_RemoveEdge (g : Graph) (a b : Node) (e : Edge) :
    e ∈ (g.RemoveEdge a b).Edges ↔ e ∈ g.Edges ∧ e ≠ ⟨a, b⟩ := by
  rw [mem_Edges, mem_Edges]
  obtain ⟨f, t⟩ := e
  simp only [RemoveEdge, deleteEntry, Edge.mk.injEq, ne_eq, not_and]
  cases hl : g.edgesOut.lookup a with
  | none =>
    simp only
    constructor
    · rintro ⟨ts, hts, ht⟩
      refine ⟨⟨ts, hts, ht⟩, ?_⟩
      rintro rfl
      rw [hl] at hts
      cases hts
    · exact fun h => h.1
  | some inner =>
    simp only
    by_cases hf : f = a
    · subst hf
      rw [Finmap.lookup_insert, hl]
      simp only [Option.some.injEq, exists_eq_left', Finset.mem_erase, true_implies, ne_eq]
      tauto
    · rw [Finmap.lookup_insert_of_ne _ hf]
      simp [hf]

theorem mem_Edges_RemoveNode (g : Graph) (n : Node) (e : Edge) :
    e ∈ (g.RemoveNode n).Edges ↔ e ∈ g.Edges ∧ e.From ≠ n := by
  rw [mem_Edges, mem_Edges]
  simp only [RemoveNode]
  by_cases hf : e.From = n
  · rw [hf, Finmap.lookup_erase]
    simp
  · rw [Finmap.lookup_erase_ne hf]
    simp [hf]

theorem AddEdge_idem {g : Graph} (hs : g.Sync) (a b : Node) :
    ∃ g1, g.AddEdge a b = .ok g1 ∧ g1.AddEdge a b = .ok g1 := by
  by_cases hab : a = b
  · subst hab
    exact ⟨g, AddEdge_self g a, AddEdge_self g a⟩
  · obtain ⟨o, i, ho, hi, heq⟩ := AddEdge_eq hs hab
    refine ⟨_, heq, ?_⟩
    have hs1 := Sync_AddEdge hs heq
    obtain ⟨o1, i1, ho1, hi1, heq1⟩ := AddEdge_eq hs1 hab
    rw [heq1]
    have ha := (mem_nodes_AddEdge hs hab heq a).mpr (Or.inr (Or.inl rfl))
    have hb := (mem_nodes_AddEdge hs hab heq b).mpr (Or.inr (Or.inr rfl))
    have hba : b ≠ a := fun h => hab h.symm
    rw [AddNode_of_mem ha, AddNode_of_mem hb] at ho1 hi1 ⊢
    simp only [Finmap.lookup_insert, Option.some.injEq] at ho1 hi1
    subst ho1 hi1
    simp

theorem Sync_of_Reachable {g : Graph} (h : Reachable g) : g.Sync := by
  induction h with
  | newGraph => exact Sync_NewGraph
  | addNode n _ ih => exact Sync_AddNode ih n
  | addEdge a b _ hadd ih => exact Sync_AddEdge ih hadd
  | removeEdge a b _ ih => exact Sync_RemoveEdge ih a b
  | removeNode n _ ih => exact Sync_RemoveNode ih n
  | removeDisconnectedNodes _ ih => rw [RemoveDisconnectedNodes_of_Sync ih]; exact ih

theorem noSelfEdge_of_Reachable {g : Graph} (h : Reachable g) :
    ∀ e ∈ g.Edges, e.From ≠ e.To := by
  induction h with
  | newGraph => intro e he; simp [Edges, NewGraph] at he
  | @addNode g n hr ih => rw [Edges_AddNode (Sync_of_Reachable hr)]; exact ih
  | @addEdge g g1 a b hr hadd ih =>
    by_cases hab : a = b
    · subst hab
      rw [AddEdge_self] at hadd
      cases hadd; exact ih
    · intro e he
      rcases (mem_Edges_AddEdge (Sync_of_Reachable hr) hab hadd e).mp he with h1 | rfl
      · exact ih e h1
      · exact hab
  | removeEdge a b _ ih => exact fun e he => ih e ((mem_Edges_RemoveEdge _ a b e).mp he).1
  | removeNode n _ ih => exact fun e he => ih e ((mem_Edges_RemoveNode _ n e).mp he).1
  | @removeDisconnectedNodes g hr ih =>
    rw [RemoveDisconnectedNodes_of_Sync (Sync_of_Reachable hr)]; exact ih

end Graph

theorem abGraph_eq : NewGraph.AddEdge (Node.Type_ "A") (Node.Type_ "B") = .ok abGraph := rfl

theorem Reachable_abGraph : Reachable abGraph :=
  Reachable.addEdge _ _ Reachable.newGraph abGraph_eq

/-! ## Lemmas on the type-shape decomposer -/

theorem EdgesAdded.refl (fromNode : Node) (fromPkg : Option Package) (g : Graph) :
    EdgesAdded fromNode fromPkg [] g g := by
  intro e; simp

theorem EdgesAdded.trans {fromNode : Node} {fromPkg : Option Package}
    {s1 s2 : List (Option Package × String)} {g g1 g2 : Graph}
    (h1 : EdgesAdded fromNode fromPkg s1 g g1) (h2 : EdgesAdded fromNode fromPkg s2 g1 g2) :
    EdgesAdded fromNode fromPkg (s1 ++ s2) g g2 := by
  intro e
  rw [h2 e, h1 e]
  simp only [List.mem_append]
  constructor
  · rintro ((h | ⟨hf, n, hn, ht⟩) | ⟨hf, n, hn, ht⟩)
    · exact Or.inl h
    · exact Or.inr ⟨hf, n, Or.inl hn, ht⟩
    · exact Or.inr ⟨hf, n, Or.inr hn, ht⟩
  · rintro (h | ⟨hf, n, hn | hn, ht⟩)
    · exact Or.inl (Or.inl h)
    · exact Or.inl (Or.inr ⟨hf, n, hn, ht⟩)
    · exact Or.inr ⟨hf, n, hn, ht⟩

theorem addTypeEdges_named (fromNode : Node) (fromPkg toPkg : Option Package) (name : String)
    {g : Graph} (hs : g.Sync) :
    ∃ g1, addTypeEdges fromNode fromPkg (.Named toPkg name) g = .ok g1 ∧ g1.Sync ∧
      EdgesAdded fromNode fromPkg [(toPkg, name)] g g1 := by
  unfold addTypeEdges
  by_cases hp : fromPkg = toPkg
  · rw [if_pos hp]
    by_cases hn : fromNode = Node.Type_ name
    · refine ⟨g, by rw [hn, Graph.AddEdge_self], hs, ?_⟩
      intro e
      simp [hn]
    · obtain ⟨o, i, _, _, heq⟩ := Graph.AddEdge_eq hs hn
      refine ⟨_, heq, Graph.Sync_AddEdge hs heq, ?_⟩
      intro e
      rw [Graph.mem_Edges_AddEdge hs hn heq]
      obtain ⟨f, t⟩ := e
      simp only [Edge.mk.injEq, List.mem_singleton, Prod.mk.injEq]
      constructor
      · rintro (h | ⟨rfl, rfl⟩)
        · exact Or.inl h
        · exact Or.inr ⟨rfl, name, ⟨hp, rfl⟩, rfl, fun h => hn h.symm⟩
      · rintro (h | ⟨rfl, n, ⟨_, rfl⟩, rfl, _⟩)
        · exact Or.inl h
        · exact Or.inr ⟨rfl, rfl⟩
  · rw [if_neg hp]
    refine ⟨g, rfl, hs, ?_⟩
    intro e
    simp only [List.mem_singleton, Prod.mk.injEq]
    constructor
    · exact Or.inl
    · rintro (h | ⟨_, n, ⟨h1, _⟩, _⟩)
      · exact h
      · exact absurd h1 hp

mutual

theorem addTypeEdges_sound (fromNode : Node) (fromPkg : Option Package) :
    ∀ (ty : GoType) (g : Graph), g.Sync → supported ty = true →
      ∃ g1, addTypeEdges fromNode fromPkg ty g = .ok g1 ∧ g1.Sync ∧
        EdgesAdded fromNode fromPkg (namedTypes ty) g g1
  | .Named toPkg name, g, hs, _ => by
    simpa [namedTypes] using addTypeEdges_named fromNode fromPkg toPkg name hs
  | .Struct fields, g, hs, hsup => by
    simp only [supported] at hsup
    simpa [addTypeEdges, namedTypes] using
      addTypeEdgesEach_sound fromNode fromPkg fields g hs hsup
  | .Interface embeddeds methods, g, hs, hsup => by
    simp only [supported, Bool.and_eq_true] at hsup
    obtain ⟨g1, h1, hs1, he1⟩ := addTypeEdgesEach_sound fromNode fromPkg embeddeds g hs hsup.1
    obtain ⟨g2, h2, hs2, he2⟩ := addTypeEdgesEach_sound fromNode fromPkg methods g1 hs1 hsup.2
    refine ⟨g2, ?_, hs2, ?_⟩
    · simp only [addTypeEdges, h1, h2]
    · simpa only [namedTypes] using he1.trans he2
  | .Signature params results recv, g, hs, hsup => by
    simp only [supported, Bool.and_eq_true] at hsup
    obtain ⟨g1, h1, hs1, he1⟩ := addTypeEdgesEach_sound fromNode fromPkg params g hs hsup.1.1
    obtain ⟨g2, h2, hs2, he2⟩ := addTypeEdgesEach_sound fromNode fromPkg results g1 hs1 hsup.1.2
    obtain ⟨g3, h3, hs3, he3⟩ := addTypeEdgesRecv_sound fromNode fromPkg recv g2 hs2 hsup.2
    refine ⟨g3, ?_, hs3, ?_⟩
    · simp only [addTypeEdges, h1, h2, h3]
    · simpa only [namedTypes] using (he1.trans he2).trans he3
  | .Map key elem, g, hs, hsup => by
    simp only [supported, Bool.and_eq_true] at hsup
    obtain ⟨g1, h1, hs1, he1⟩ := addTypeEdges_sound fromNode fromPkg key g hs hsup.1
    obtain ⟨g2, h2, hs2, he2⟩ := addTypeEdges_sound fromNode fromPkg elem g1 hs1 hsup.2
    refine ⟨g2, ?_, hs2, ?_⟩
    · simp only [addTypeEdges, h1, h2]
    · simpa only [namedTypes] using he1.trans he2
  | .Slice elem, g, hs, hsup => by
    simp only [supported] at hsup
    simpa only [addTypeEdges, namedTypes] using addTypeEdges_sound fromNode fromPkg elem g hs hsup
  | .Pointer elem, g, hs, hsup => by
    simp only [supported] at hsup
    simpa only [addTypeEdges, namedTypes] using addTypeEdges_sound fromNode fromPkg elem g hs hsup
  | .Array elem, g, hs, hsup => by
    simp only [supported] at hsup
    simpa only [addTypeEdges, namedTypes] using addTypeEdges_sound fromNode fromPkg elem g hs hsup
  | .Chan elem, g, hs, hsup => by
    simp only [supported] at hsup
    simpa only [addTypeEdges, namedTypes] using addTypeEdges_sound fromNode fromPkg elem g hs hsup
  | .Basic _, g, hs, _ => ⟨g, by simp only [addTypeEdges], hs, by
      simpa only [namedTypes] using EdgesAdded.refl fromNode fromPkg g⟩
  | .Tuple _, _, _, hsup => by simp [supported] at hsup

theorem addTypeEdgesEach_sound (fromNode : Node) (fromPkg : Option Package) :
    ∀ (ts : List GoType) (g : Graph), g.Sync → supportedEach ts = true →
      ∃ g1, addTypeEdgesEach fromNode fromPkg ts g = .ok g1 ∧ g1.Sync ∧
        EdgesAdded fromNode fromPkg (namedTypesEach ts) g g1
  | [], g, hs, _ => ⟨g, by simp only [addTypeEdgesEach], hs, by
      simpa only [namedTypesEach] using EdgesAdded.refl fromNode fromPkg g⟩
  | t :: ts, g, hs, hsup => by
    simp only [supportedEach, Bool.and_eq_true] at hsup
    obtain ⟨g1, h1, hs1, he1⟩ := addTypeEdges_sound fromNode fromPkg t g hs hsup.1
    obtain ⟨g2, h2, hs2, he2⟩ := addTypeEdgesEach_sound fromNode fromPkg ts g1 hs1 hsup.2
    refine ⟨g2, ?_, hs2, ?_⟩
    · simp only [addTypeEdgesEach, h1, h2]
    · simpa only [namedTypesEach] using he1.trans he2

theorem addTypeEdgesRecv_sound (fromNode : Node) (fromPkg : Option Package) :
    ∀ (r : Option GoType) (g : Graph), g.Sync → supportedRecv r = true →
      ∃ g1, addTypeEdgesRecv fromNode fromPkg r g = .ok g1 ∧ g1.Sync ∧
        EdgesAdded fromNode fromPkg (namedTypesRecv r) g g1
  | none, g, hs, _ => ⟨g, by simp only [addTypeEdgesRecv], hs, by
      simpa only [namedTypesRecv] using EdgesAdded.refl fromNode fromPkg g⟩
  | some t, g, hs, hsup => by
    simp only [supportedRecv] at hsup
    simpa only [addTypeEdgesRecv, namedTypesRecv] using
      addTypeEdges_sound fromNode fromPkg t g hs hsup

end

/-! ## The claims -/

/-- C2: the code keeps a node that has no edge. After `NewGraph()` and
`AddNode(Type("A"))` the node `A` has empty outgoing and incoming adjacency
and the graph has no edge, yet after `RemoveDisconnectedNodes()` `HasNode(A)`
is still true: the loop tests the presence of the key `A` in the adjacency
maps, which `AddNode` has created, not the emptiness of its sets. -/
theorem C2_isolated_node_survives :
    (NewGraph.AddNode (Node.Type_ "A")).edgesOut.lookup (Node.Type_ "A") = some ∅ ∧
      (NewGraph.AddNode (Node.Type_ "A")).edgesIn.lookup (Node.Type_ "A") = some ∅ ∧
      (NewGraph.AddNode (Node.Type_ "A")).Edges = ∅ ∧
      (NewGraph.AddNode (Node.Type_ "A")).HasNode (Node.Type_ "A") = true ∧
      (NewGraph.AddNode (Node.Type_ "A")).RemoveDisconnectedNodes.HasNode (Node.Type_ "A")
        = true := by
  decide

/-- C3: in a graph built through the exported interface, a node that has a
non-empty outgoing or incoming adjacency set, or at which an edge of
`Edges()` starts or ends, is still a node after `RemoveDisconnectedNodes()`,
and `Edges()` is the same set as before the call. -/
theorem C3_prune_preserves_connected (g : Graph) (hg : Reachable g) (n : Node)
    (hn : g.HasNode n = true)
    (_hedge : (∃ m, m ∈ (g.edgesOut.lookup n).getD ∅) ∨ (∃ m, m ∈ (g.edgesIn.lookup n).getD ∅) ∨
      ∃ e ∈ g.Edges, e.From = n ∨ e.To = n) :
    g.RemoveDisconnectedNodes.HasNode n = true ∧ g.RemoveDisconnectedNodes.Edges = g.Edges := by
  rw [Graph.RemoveDisconnectedNodes_of_Sync (Graph.Sync_of_Reachable hg)]
  exact ⟨hn, rfl⟩

/-- C3, at the graph with the single edge `A -> B` and the node `A`. -/
theorem C3_prune_preserves_connected_witness :
    Reachable abGraph ∧ abGraph.HasNode (Node.Type_ "A") = true ∧
      (∃ m, m ∈ (abGraph.edgesOut.lookup (Node.Type_ "A")).getD ∅) ∧
      abGraph.RemoveDisconnectedNodes.HasNode (Node.Type_ "A") = true ∧
      abGraph.RemoveDisconnectedNodes.Edges = abGraph.Edges :=
  ⟨Reachable_abGraph, by decide, ⟨Node.Type_ "B", by decide⟩,
    C3_prune_preserves_connected abGraph Reachable_abGraph (Node.Type_ "A") (by decide)
      (Or.inl ⟨Node.Type_ "B", by decide⟩)⟩

/-- C4: the code breaks the invariant that both endpoints of every edge are
nodes. After `NewGraph()`, `AddEdge(Type("A"), Type("B"))` and
`RemoveNode(Type("B"))` the graph is reachable, `Edges()` still holds the
edge `A -> B`, and `HasNode(B)` is false: `RemoveNode` deletes the records
keyed by the node and leaves the out-set of `A` as it was. -/
theorem C4_edge_to_removed_node :
    NewGraph.AddEdge (Node.Type_ "A") (Node.Type_ "B") = .ok abGraph ∧
      Reachable (abGraph.RemoveNode (Node.Type_ "B")) ∧
      (abGraph.RemoveNode (Node.Type_ "B")).Edges = {⟨Node.Type_ "A", Node.Type_ "B"⟩} ∧
      (abGraph.RemoveNode (Node.Type_ "B")).HasNode (Node.Type_ "A") = true ∧
      (abGraph.RemoveNode (Node.Type_ "B")).HasNode (Node.Type_ "B") = false :=
  ⟨abGraph_eq, Reachable.removeNode _ Reachable_abGraph, by decide, by decide, by decide⟩

/-- C5: after `RemoveNode(n)` on any graph, `HasNode(n)` is false, `HasNode`
is unchanged at every other node, no edge of `Edges()` starts at `n`, and
every edge `(m, n)` with `m != n` that was in `Edges()` is still there. -/
theorem C5_RemoveNode_effect (g : Graph) (n : Node) :
    (g.RemoveNode n).HasNode n = false ∧
      (∀ m, m ≠ n → (g.RemoveNode n).HasNode m = g.HasNode m) ∧
      (∀ e ∈ (g.RemoveNode n).Edges, e.From ≠ n) ∧
      (∀ m, m ≠ n → (⟨m, n⟩ : Edge) ∈ g.Edges → (⟨m, n⟩ : Edge) ∈ (g.RemoveNode n).Edges) := by
  refine ⟨?_, ?_, ?_, ?_⟩
  · simp [Graph.HasNode, Graph.RemoveNode]
  · intro m hm
    simp [Graph.HasNode, Graph.RemoveNode, hm]
  · exact fun e he => ((Graph.mem_Edges_RemoveNode g n e).mp he).2
  · exact fun m hm he => (Graph.mem_Edges_RemoveNode g n ⟨m, n⟩).mpr ⟨he, hm⟩

/-- C5, at the graph with the single edge `A -> B` and the node `B`: the
edge `A -> B` survives `RemoveNode(B)`. -/
theorem C5_RemoveNode_effect_witness :
    (abGraph.RemoveNode (Node.Type_ "B")).HasNode (Node.Type_ "B") = false ∧
      (⟨Node.Type_ "A", Node.Type_ "B"⟩ : Edge) ∈ (abGraph.RemoveNode (Node.Type_ "B")).Edges :=
  ⟨(C5_RemoveNode_effect abGraph (Node.Type_ "B")).1,
    (C5_RemoveNode_effect abGraph (Node.Type_ "B")).2.2.2 (Node.Type_ "A") (by decide)
      (by decide)⟩

/-- C6: in every graph built from `NewGraph()` by `AddNode`, `AddEdge`
(calls `AddEdge(n, n)` included), `RemoveEdge`, `RemoveNode` and
`RemoveDisconnectedNodes`, no edge of `Edges()` has its `From` equal to its
`To`. -/
theorem C6_no_self_edges (g : Graph) (hg : Reachable g) :
    ∀ e ∈ g.Edges, e.From ≠ e.To :=
  Graph.noSelfEdge_of_Reachable hg

/-- C6, at the graph built by `AddEdge(A, B)` and then `AddEdge(A, A)`. -/
theorem C6_no_self_edges_witness :
    Reachable abGraph ∧ abGraph.AddEdge (Node.Type_ "A") (Node.Type_ "A") = .ok abGraph ∧
      ∀ e ∈ abGraph.Edges, e.From ≠ e.To :=
  ⟨Reachable_abGraph, Graph.AddEdge_self _ _,
    C6_no_self_edges abGraph
      (Reachable.addEdge (Node.Type_ "A") (Node.Type_ "A") Reachable_abGraph
        (Graph.AddEdge_self _ _))⟩

/-- C7: on a graph built through the exported interface, `AddEdge(from, to)`
with `from != to` returns, the node set afterwards is the previous one
together with `from` and `to`, and `Edges()` is the previous set together
with the edge `(from, to)`; with `from == to` the graph is returned
unchanged. -/
theorem C7_AddEdge_effect (g : Graph) (hg : Reachable g) (from_ to_ : Node) :
    (from_ ≠ to_ →
      ∃ g1, g.AddEdge from_ to_ = .ok g1 ∧
        g1.Nodes = g.Nodes ∪ {from_, to_} ∧
        g1.Edges = g.Edges ∪ {⟨from_, to_⟩}) ∧
    (from_ = to_ → g.AddEdge from_ to_ = .ok g) := by
  have hs := Graph.Sync_of_Reachable hg
  constructor
  · intro hne
    obtain ⟨o, i, _, _, heq⟩ := Graph.AddEdge_eq hs hne
    refine ⟨_, heq, ?_, ?_⟩
    · ext m
      rw [Graph.Nodes, Graph.mem_nodes_AddEdge hs hne heq m]
      simp only [Graph.Nodes, Finset.mem_union, Finset.mem_insert, Finset.mem_singleton]
    · ext e
      have := Graph.mem_Edges_AddEdge hs hne heq e
      simpa using this
  · rintro rfl
    exact Graph.AddEdge_self g from_

/-- C7, at the empty graph: `AddEdge(A, B)` and `AddEdge(A, A)`. -/
theorem C7_AddEdge_effect_witness :
    Reachable NewGraph ∧
      (∃ g1, NewGraph.AddEdge (Node.Type_ "A") (Node.Type_ "B") = .ok g1 ∧
        g1.Nodes = NewGraph.Nodes ∪ {Node.Type_ "A", Node.Type_ "B"} ∧
        g1.Edges = NewGraph.Edges ∪ {⟨Node.Type_ "A", Node.Type_ "B"⟩}) ∧
      NewGraph.AddEdge (Node.Type_ "A") (Node.Type_ "A") = .ok NewGraph :=
  ⟨Reachable.newGraph,
    (C7_AddEdge_effect NewGraph Reachable.newGraph (Node.Type_ "A") (Node.Type_ "B")).1
      (by decide),
    (C7_AddEdge_effect NewGraph Reachable.newGraph (Node.Type_ "A") (Node.Type_ "A")).2 rfl⟩

/-- C8, the claim as stated fails: `AddEdge(A, A)` on the empty graph returns
the empty graph, in which `HasNode(A)` is false. -/
theorem C8_AddEdge_self_adds_no_node :
    ∃ g1, NewGraph.AddEdge (Node.Type_ "A") (Node.Type_ "A") = .ok g1 ∧
      g1.HasNode (Node.Type_ "A") = false :=
  ⟨NewGraph, rfl, by decide⟩

/-- C8, amended: for all nodes `a != b`, `AddEdge(a, b)` on the empty graph
returns a graph in which `HasNode(a)` and `HasNode(b)` are true. -/
theorem C8_AddEdge_adds_nodes (a b : Node) (hab : a ≠ b) :
    ∃ g1, NewGraph.AddEdge a b = .ok g1 ∧ g1.HasNode a = true ∧ g1.HasNode b = true := by
  obtain ⟨o, i, _, _, heq⟩ := Graph.AddEdge_eq Graph.Sync_NewGraph hab
  refine ⟨_, heq, ?_, ?_⟩
  · exact (Graph.hasNode_iff _ _).mpr
      ((Graph.mem_nodes_AddEdge Graph.Sync_NewGraph hab heq a).mpr (Or.inr (Or.inl rfl)))
  · exact (Graph.hasNode_iff _ _).mpr
      ((Graph.mem_nodes_AddEdge Graph.Sync_NewGraph hab heq b).mpr (Or.inr (Or.inr rfl)))

/-- C8, amended, at `a = Function("f")` and `b = Type("f")`. -/
theorem C8_AddEdge_adds_nodes_witness :
    Node.Function "f" ≠ Node.Type_ "f" ∧
      ∃ g1, NewGraph.AddEdge (Node.Function "f") (Node.Type_ "f") = .ok g1 ∧
        g1.HasNode (Node.Function "f") = true ∧ g1.HasNode (Node.Type_ "f") = true :=
  ⟨by decide, C8_AddEdge_adds_nodes (Node.Function "f") (Node.Type_ "f") (by decide)⟩

/-- C9: on a graph built through the exported interface, `AddNode(n)` twice
gives the same graph as once, `AddEdge(a, b)` returns and a second
`AddEdge(a, b)` returns the same graph again, and `AddNode(n)` on a graph
that has the node `n` returns the graph unchanged, the edges of `n`
included. -/
theorem C9_insertion_idempotent (g : Graph) (hg : Reachable g) (n a b : Node) :
    (g.AddNode n).AddNode n = g.AddNode n ∧
      (∃ g1, g.AddEdge a b = .ok g1 ∧ g1.AddEdge a b = .ok g1) ∧
      (g.HasNode n = true → g.AddNode n = g) := by
  refine ⟨?_, Graph.AddEdge_idem (Graph.Sync_of_Reachable hg) a b, ?_⟩
  · exact Graph.AddNode_of_mem ((Graph.mem_nodes_AddNode g n n).mpr (Or.inl rfl))
  · exact fun h => Graph.AddNode_of_mem ((Graph.hasNode_iff g n).mp h)

/-- C9, at the graph with the single edge `A -> B`: a second
`AddEdge(A, B)` and `AddNode(A)` both return that graph. -/
theorem C9_insertion_idempotent_witness :
    Reachable abGraph ∧
      (∃ g1, abGraph.AddEdge (Node.Type_ "A") (Node.Type_ "B") = .ok g1 ∧
        g1.AddEdge (Node.Type_ "A") (Node.Type_ "B") = .ok g1) ∧
      abGraph.AddNode (Node.Type_ "A") = abGraph :=
  ⟨Reachable_abGraph,
    (C9_insertion_idempotent abGraph Reachable_abGraph (Node.Type_ "A") (Node.Type_ "A")
      (Node.Type_ "B")).2.1,
    (C9_insertion_idempotent abGraph Reachable_abGraph (Node.Type_ "A") (Node.Type_ "A")
      (Node.Type_ "B")).2.2 (by decide)⟩

/-- C10: `RemoveEdge(from, to)` is total; afterwards the edge `(from, to)`
is not in `Edges()`, every other edge that was in `Edges()` is still there
and no edge has been added, and the node set is unchanged; when `(from, to)`
was not in `Edges()`, whether or not `from` and `to` are nodes, `Nodes()` and
`Edges()` are unchanged. -/
theorem C10_RemoveEdge_effect (g : Graph) (from_ to_ : Node) :
    (⟨from_, to_⟩ : Edge) ∉ (g.RemoveEdge from_ to_).Edges ∧
      (∀ e ∈ g.Edges, e ≠ ⟨from_, to_⟩ → e ∈ (g.RemoveEdge from_ to_).Edges) ∧
      (∀ e ∈ (g.RemoveEdge from_ to_).Edges, e ∈ g.Edges) ∧
      (g.RemoveEdge from_ to_).Nodes = g.Nodes ∧
      (∀ m, (g.RemoveEdge from_ to_).HasNode m = g.HasNode m) ∧
      ((⟨from_, to_⟩ : Edge) ∉ g.Edges →
        (g.RemoveEdge from_ to_).Nodes = g.Nodes ∧ (g.RemoveEdge from_ to_).Edges = g.Edges) := by
  refine ⟨?_, ?_, ?_, rfl, fun _ => rfl, ?_⟩
  · exact fun h => ((Graph.mem_Edges_RemoveEdge g from_ to_ _).mp h).2 rfl
  · exact fun e he hne => (Graph.mem_Edges_RemoveEdge g from_ to_ e).mpr ⟨he, hne⟩
  · exact fun e he => ((Graph.mem_Edges_RemoveEdge g from_ to_ e).mp he).1
  · intro hnot
    refine ⟨rfl, ?_⟩
    ext e
    rw [Graph.mem_Edges_RemoveEdge]
    constructor
    · exact fun h => h.1
    · exact fun h => ⟨h, fun heq => hnot (heq ▸ h)⟩

/-- C10, at the graph with the single edge `A -> B`: removing `A -> B`
removes it, and removing the absent edge `C -> D` between two absent nodes
changes nothing. -/
theorem C10_RemoveEdge_effect_witness :
    (⟨Node.Type_ "A", Node.Type_ "B"⟩ : Edge) ∈ abGraph.Edges ∧
      (⟨Node.Type_ "A", Node.Type_ "B"⟩ : Edge) ∉
        (abGraph.RemoveEdge (Node.Type_ "A") (Node.Type_ "B")).Edges ∧
      (abGraph.RemoveEdge (Node.Type_ "C") (Node.Type_ "D")).Nodes = abGraph.Nodes ∧
      (abGraph.RemoveEdge (Node.Type_ "C") (Node.Type_ "D")).Edges = abGraph.Edges :=
  ⟨by decide, (C10_RemoveEdge_effect abGraph (Node.Type_ "A") (Node.Type_ "B")).1,
    (C10_RemoveEdge_effect abGraph (Node.Type_ "C") (Node.Type_ "D")).2.2.2.2.2 (by decide)⟩

/-! ## Lemmas on the returned slices, the rendering and the insertions -/

theorem Graph.mem_EdgesSlice (g : Graph) (e : Edge) :
    e ∈ g.EdgesSlice ↔ ∃ ts, g.edgesOut.lookup e.From = some ts ∧ e.To ∈ ts := by
  unfold Graph.EdgesSlice
  simp only [Multiset.mem_bind, Multiset.mem_map, Finset.mem_val]
  constructor
  · rintro ⟨⟨a, ts⟩, hmem, b, hb, rfl⟩
    exact ⟨ts, Finmap.lookup_eq_some_iff.mpr hmem, hb⟩
  · rintro ⟨ts, hts, hb⟩
    exact ⟨⟨e.From, ts⟩, Finmap.lookup_eq_some_iff.mp hts, e.To, hb, rfl⟩

theorem Graph.nodup_EdgesSlice (g : Graph) : g.EdgesSlice.Nodup := by
  unfold Graph.EdgesSlice
  rw [Multiset.nodup_bind]
  constructor
  · intro entry _
    refine Multiset.Nodup.map ?_ entry.2.nodup
    intro x y h
    exact (Edge.mk.injEq _ _ _ _ ▸ h : _ ∧ _).2
  · generalize g.edgesOut = m
    induction m using Finmap.induction_on with
    | H a =>
      refine ⟨a.entries, rfl, ?_⟩
      have hk := List.nodupKeys_iff_pairwise.mp a.nodupKeys
      refine hk.imp ?_
      intro s s' hne
      rw [Function.onFun, Multiset.disjoint_left]
      intro e he he'
      simp only [Multiset.mem_map, Finset.mem_val] at he he'
      obtain ⟨_, _, rfl⟩ := he
      obtain ⟨_, _, h2⟩ := he'
      exact hne (congrArg Edge.From h2).symm

theorem Node.String_injective : ∀ a b : Node, a.String = b.String → a = b := by
  intro a b h
  have hd := congrArg String.data h
  cases a <;> cases b <;>
    simp only [Node.String, String.data_append] at hd <;>
    first
    | (have hd1 := List.append_cancel_left hd
       rw [String.ext hd1])
    | (exfalso; revert hd; simp)

theorem Graph.outOf_AddNode {g : Graph} (hs : g.Sync) (n x : Node) :
    (g.AddNode n).outOf x = g.outOf x := by
  by_cases hn : n ∈ g.nodes
  · rw [AddNode_of_mem hn]
  · have hnone : g.edgesOut.lookup n = none :=
      Finmap.lookup_eq_none.mpr fun h => hn ((hs n).1.mp h)
    simp only [outOf, AddNode, hn, if_false]
    by_cases hx : x = n
    · rw [hx, Finmap.lookup_insert, hnone]; rfl
    · rw [Finmap.lookup_insert_of_ne _ hx]

theorem Graph.inOf_AddNode {g : Graph} (hs : g.Sync) (n x : Node) :
    (g.AddNode n).inOf x = g.inOf x := by
  by_cases hn : n ∈ g.nodes
  · rw [AddNode_of_mem hn]
  · have hnone : g.edgesIn.lookup n = none :=
      Finmap.lookup_eq_none.mpr fun h => hn ((hs n).2.mp h)
    simp only [inOf, AddNode, hn, if_false]
    by_cases hx : x = n
    · rw [hx, Finmap.lookup_insert, hnone]; rfl
    · rw [Finmap.lookup_insert_of_ne _ hx]

/-- A graph whose three maps have the same keys is determined by its node
set and the out-set and in-set of every node. -/
theorem Graph.ext_of_Sync {g h : Graph} (hg : g.Sync) (hh : h.Sync)
    (hn : g.nodes = h.nodes) (ho : ∀ x, g.outOf x = h.outOf x)
    (hi : ∀ x, g.inOf x = h.inOf x) : g = h := by
  have key : ∀ (m m1 : Adjacency), (∀ x, x ∈ m ↔ x ∈ m1) →
      (∀ x, (m.lookup x).getD ∅ = (m1.lookup x).getD ∅) → m = m1 := by
    intro m m1 hk hv
    refine Finmap.ext_lookup fun x => ?_
    have h1 := hk x
    have h2 := hv x
    cases hx : m.lookup x with
    | none =>
      have : x ∉ m1 := fun hm => Finmap.lookup_eq_none.mp hx (h1.mpr hm)
      rw [Finmap.lookup_eq_none.mpr this]
    | some v =>
      obtain ⟨w, hw⟩ := Finmap.mem_iff.mp (h1.mp (Finmap.mem_of_lookup_eq_some hx))
      rw [hx, hw] at h2
      rw [hw]
      exact congrArg some h2
  obtain ⟨gn, go, gi⟩ := g
  obtain ⟨hn', ho', hi'⟩ := h
  simp only at hn
  subst hn
  have e1 : go = ho' := key go ho' (fun x => by rw [(hg x).1, (hh x).1]) ho
  have e2 : gi = hi' := key gi hi' (fun x => by rw [(hg x).2, (hh x).2]) hi
  rw [e1, e2]

/-- On a graph whose maps have the same keys an insertion does not panic; it
adds its nodes to the node set and its contributions to the out-sets and
in-sets, and changes nothing else. -/
theorem InsertOp.apply_eq {g : Graph} (hs : g.Sync) (op : InsertOp) :
    ∃ g1, op.apply g = .ok g1 ∧ g1.Sync ∧ g1.nodes = g.nodes ∪ op.nodes ∧
      (∀ x, g1.outOf x = g.outOf x ∪ op.out x) ∧
      (∀ x, g1.inOf x = g.inOf x ∪ op.inn x) := by
  cases op with
  | addNode n =>
    refine ⟨g.AddNode n, rfl, Graph.Sync_AddNode hs n, ?_, ?_, ?_⟩
    · ext m
      rw [Graph.mem_nodes_AddNode]
      simp only [InsertOp.nodes, Finset.mem_union, Finset.mem_singleton]
      tauto
    · intro x; rw [Graph.outOf_AddNode hs]; simp [InsertOp.out]
    · intro x; rw [Graph.inOf_AddNode hs]; simp [InsertOp.inn]
  | addEdge a b =>
    by_cases hab : a = b
    · subst hab
      refine ⟨g, Graph.AddEdge_self g a, hs, ?_, ?_, ?_⟩ <;>
        simp [InsertOp.nodes, InsertOp.out, InsertOp.inn]
    · obtain ⟨o, i, ho, hi, heq⟩ := Graph.AddEdge_eq hs hab
      have hs1 : (g.AddNode a).Sync := Graph.Sync_AddNode hs a
      have hoa : o = g.outOf a := by
        have : ((g.AddNode a).AddNode b).outOf a = o := by simp [Graph.outOf, ho]
        rw [← this, Graph.outOf_AddNode hs1, Graph.outOf_AddNode hs]
      have hib : i = g.inOf b := by
        have : ((g.AddNode a).AddNode b).inOf b = i := by simp [Graph.inOf, hi]
        rw [← this, Graph.inOf_AddNode hs1, Graph.inOf_AddNode hs]
      refine ⟨_, heq, Graph.Sync_AddEdge hs heq, ?_, ?_, ?_⟩
      · ext m
        rw [Graph.mem_nodes_AddEdge hs hab heq m]
        simp only [InsertOp.nodes, if_neg hab, Finset.mem_union, Finset.mem_insert,
          Finset.mem_singleton]
      · intro x
        by_cases hx : x = a
        · subst hx
          simp only [Graph.outOf, Finmap.lookup_insert, Option.getD_some, InsertOp.out]
          rw [hoa, Graph.outOf]
          simp only [ne_eq, hab, not_false_eq_true, and_self, if_true]
          ext y; simp only [Finset.mem_insert, Finset.mem_union, Finset.mem_singleton]; tauto
        · have h1 := Graph.outOf_AddNode hs1 b x
          have h2 := Graph.outOf_AddNode hs a x
          simp only [Graph.outOf] at h1 h2 ⊢
          rw [Finmap.lookup_insert_of_ne _ hx, h1, h2]
          simp [InsertOp.out, hx]
      · intro x
        by_cases hx : x = b
        · subst hx
          simp only [Graph.inOf, Finmap.lookup_insert, Option.getD_some, InsertOp.inn]
          rw [hib, Graph.inOf]
          simp only [ne_eq, hab, not_false_eq_true, and_self, if_true]
          ext y; simp only [Finset.mem_insert, Finset.mem_union, Finset.mem_singleton]; tauto
        · have h1 := Graph.inOf_AddNode hs1 b x
          have h2 := Graph.inOf_AddNode hs a x
          simp only [Graph.inOf] at h1 h2 ⊢
          rw [Finmap.lookup_insert_of_ne _ hx, h1, h2]
          simp [InsertOp.inn, hx]

theorem InsertOp.apply_comm {g : Graph} (hs : g.Sync) (op1 op2 : InsertOp) :
    ∃ g2, andThen (op1.apply g) op2.apply = .ok g2 ∧
      andThen (op2.apply g) op1.apply = .ok g2 := by
  obtain ⟨g1, h1, s1, n1, o1, i1⟩ := InsertOp.apply_eq hs op1
  obtain ⟨g12, h12, s12, n12, o12, i12⟩ := InsertOp.apply_eq s1 op2
  obtain ⟨g2, h2, s2, n2, o2, i2⟩ := InsertOp.apply_eq hs op2
  obtain ⟨g21, h21, s21, n21, o21, i21⟩ := InsertOp.apply_eq s2 op1
  have e : g12 = g21 := by
    refine Graph.ext_of_Sync s12 s21 ?_ ?_ ?_
    · rw [n12, n1, n21, n2, Finset.union_right_comm]
    · intro x; rw [o12, o1, o21, o2, Finset.union_right_comm]
    · intro x; rw [i12, i1, i21, i2, Finset.union_right_comm]
  refine ⟨g12, ?_, ?_⟩
  · rw [h1]; exact h12
  · rw [h2, e]; exact h21

/-! ## The claims on the slices, the insertions and the rendering -/

/-- C15: for every graph, the slice returned by `Edges()` holds each
`(From, To)` pair at most once and the slice returned by `Nodes()` holds each
node at most once; their elements are those of the sets `Edges` and
`Nodes`. -/
theorem C15_slices_without_duplicates (g : Graph) :
    (∀ e, g.EdgesSlice.count e ≤ 1) ∧ (∀ n, g.NodesSlice.count n ≤ 1) ∧
      (∀ e, e ∈ g.EdgesSlice ↔ e ∈ g.Edges) ∧ (∀ n, n ∈ g.NodesSlice ↔ n ∈ g.Nodes) := by
  refine ⟨?_, ?_, ?_, ?_⟩
  · exact Multiset.nodup_iff_count_le_one.mp (Graph.nodup_EdgesSlice g)
  · exact Multiset.nodup_iff_count_le_one.mp g.nodes.nodup
  · intro e; rw [Graph.mem_EdgesSlice, Graph.mem_Edges]
  · intro n; rfl

/-- C15, at the graph built by `AddEdge(A, B)` called twice: the edge
`A -> B` is in the slice, once. -/
theorem C15_slices_without_duplicates_witness :
    abGraph.AddEdge (Node.Type_ "A") (Node.Type_ "B") = .ok abGraph ∧
      (⟨Node.Type_ "A", Node.Type_ "B"⟩ : Edge) ∈ abGraph.EdgesSlice ∧
      abGraph.EdgesSlice.count ⟨Node.Type_ "A", Node.Type_ "B"⟩ ≤ 1 :=
  ⟨by
    obtain ⟨g1, h1, h2⟩ := Graph.AddEdge_idem Graph.Sync_NewGraph (Node.Type_ "A") (Node.Type_ "B")
    rw [abGraph_eq] at h1
    cases h1
    exact h2,
   ((C15_slices_without_duplicates abGraph).2.2.1 _).mpr (by decide),
   (C15_slices_without_duplicates abGraph).1 _⟩

/-- C16: on a graph built through the exported interface, two insertions
(each a call of `AddNode` or of `AddEdge`) applied in either order both return
and give the same graph: the same node set and the same two adjacency maps. -/
theorem C16_insertions_commute (g : Graph) (hg : Reachable g) (op1 op2 : InsertOp) :
    ∃ g2, andThen (op1.apply g) op2.apply = .ok g2 ∧
      andThen (op2.apply g) op1.apply = .ok g2 :=
  InsertOp.apply_comm (Graph.Sync_of_Reachable hg) op1 op2

/-- C16, at the graph with the edge `A -> B`, for `AddNode(B)` and
`AddEdge(B, C)`. -/
theorem C16_insertions_commute_witness :
    Reachable abGraph ∧
      ∃ g2, andThen ((InsertOp.addNode (Node.Type_ "B")).apply abGraph)
          (InsertOp.addEdge (Node.Type_ "B") (Node.Type_ "C")).apply = .ok g2 ∧
        andThen ((InsertOp.addEdge (Node.Type_ "B") (Node.Type_ "C")).apply abGraph)
          (InsertOp.addNode (Node.Type_ "B")).apply = .ok g2 :=
  ⟨Reachable_abGraph, C16_insertions_commute abGraph Reachable_abGraph _ _⟩

/-- C18: in every graph built from `NewGraph()` by `AddNode`, `AddEdge`,
`RemoveEdge`, `RemoveNode` and `RemoveDisconnectedNodes`, a node is a key of
`nodes` exactly when it is a key of `edgesOut` and exactly when it is a key of
`edgesIn`; and `AddEdge` on such a graph returns a graph for every pair of
nodes, so its write into a missing adjacency map never happens. -/
theorem C18_maps_share_keys (g : Graph) (hg : Reachable g) :
    (∀ n, (n ∈ g.nodes ↔ n ∈ g.edgesOut) ∧ (n ∈ g.nodes ↔ n ∈ g.edgesIn)) ∧
      ∀ a b, ∃ g1, g.AddEdge a b = .ok g1 := by
  have hs := Graph.Sync_of_Reachable hg
  refine ⟨fun n => ⟨(hs n).1.symm, (hs n).2.symm⟩, fun a b => ?_⟩
  obtain ⟨g1, h1, _⟩ := Graph.AddEdge_idem hs a b
  exact ⟨g1, h1⟩

/-- C18, at the graph with the edge `A -> B` after `RemoveNode(B)`: the node
`B` is a key of none of the three maps, and `AddEdge(C, B)` returns. -/
theorem C18_maps_share_keys_witness :
    Reachable (abGraph.RemoveNode (Node.Type_ "B")) ∧
      (Node.Type_ "B" ∉ (abGraph.RemoveNode (Node.Type_ "B")).nodes ∧
        Node.Type_ "B" ∉ (abGraph.RemoveNode (Node.Type_ "B")).edgesOut ∧
        Node.Type_ "B" ∉ (abGraph.RemoveNode (Node.Type_ "B")).edgesIn) ∧
      ∃ g1, (abGraph.RemoveNode (Node.Type_ "B")).AddEdge (Node.Type_ "C") (Node.Type_ "B")
        = .ok g1 :=
  ⟨Reachable.removeNode _ Reachable_abGraph, by decide,
    (C18_maps_share_keys _ (Reachable.removeNode (Node.Type_ "B") Reachable_abGraph)).2 _ _⟩

/-- C20: `String()` renders `Function(s)`, `Type(s)`, `Constant(s)` and
`Variable(s)` as `func s`, `type s`, `const s` and `var s`, and two nodes
that differ, in variant or in name, are rendered differently. -/
theorem C20_String_injective :
    (∀ s, (Node.Function s).String = "func " ++ s) ∧
      (∀ s, (Node.Type_ s).String = "type " ++ s) ∧
      (∀ s, (Node.Constant s).String = "const " ++ s) ∧
      (∀ s, (Node.Variable s).String = "var " ++ s) ∧
      ∀ a b : Node, a ≠ b → a.String ≠ b.String :=
  ⟨fun _ => rfl, fun _ => rfl, fun _ => rfl, fun _ => rfl,
    fun a b hne h => hne (Node.String_injective a b h)⟩

/-- C20, at a type and a function of the same name. -/
theorem C20_String_injective_witness :
    (Node.Type_ "Foo").String = "type Foo" ∧ (Node.Function "Foo").String = "func Foo" ∧
      (Node.Type_ "Foo").String ≠ (Node.Function "Foo").String :=
  ⟨by decide, by decide, C20_String_injective.2.2.2.2 _ _ (by decide)⟩

/-! ## Lemmas on the analysis -/

theorem forEach_preserves {α ε : Type} (P : Graph → Prop)
    (body : α → Graph → Except ε Graph) (xs : List α)
    (hbody : ∀ x ∈ xs, ∀ g g1, P g → body x g = .ok g1 → P g1) :
    ∀ g g1, P g → forEach body xs g = .ok g1 → P g1 := by
  induction xs with
  | nil =>
    intro g g1 hP h
    simp only [forEach] at h
    cases h; exact hP
  | cons x xs ih =>
    intro g g1 hP h
    simp only [forEach] at h
    cases hx : body x g with
    | error e => rw [hx] at h; cases h
    | ok g2 =>
      rw [hx] at h
      exact ih (fun y hy => hbody y (List.mem_cons_of_mem x hy)) g2 g1
        (hbody x (List.mem_cons_self x xs) g g2 hP hx) h

theorem Grows.refl_grows (fromNode : Node) {g : Graph} (hs : g.Sync) : Grows fromNode g g :=
  ⟨hs, fun _ he => Or.inl he, fun _ hn => Or.inl hn⟩

theorem Grows.trans_grows {fromNode : Node} {g g1 g2 : Graph}
    (h1 : Grows fromNode g g1) (h2 : Grows fromNode g1 g2) : Grows fromNode g g2 := by
  refine ⟨h2.1, ?_, ?_⟩
  · intro e he
    rcases h2.2.1 e he with h | h
    · exact h1.2.1 e h
    · exact Or.inr h
  · intro n hn
    rcases h2.2.2 n hn with h | h
    · exact h1.2.2 n h
    · exact Or.inr h

theorem Grows_AddEdge {g g1 : Graph} (hs : g.Sync) (a : Node) (t : String)
    (h : g.AddEdge a (Node.Type_ t) = .ok g1) : Grows a g g1 := by
  by_cases hab : a = Node.Type_ t
  · rw [← hab, Graph.AddEdge_self] at h
    cases h
    exact Grows.refl_grows a hs
  · refine ⟨Graph.Sync_AddEdge hs h, ?_, ?_⟩
    · intro e he
      rcases (Graph.mem_Edges_AddEdge hs hab h e).mp he with h1 | rfl
      · exact Or.inl h1
      · exact Or.inr ⟨rfl, t, rfl⟩
    · intro n hn
      rcases (Graph.mem_nodes_AddEdge hs hab h n).mp hn with h1 | rfl | rfl
      · exact Or.inl h1
      · exact Or.inr (Or.inl rfl)
      · exact Or.inr (Or.inr ⟨t, rfl⟩)

mutual

theorem addTypeEdges_grows (fromNode : Node) (fromPkg : Option Package) :
    ∀ (ty : GoType) (g g1 : Graph), g.Sync →
      addTypeEdges fromNode fromPkg ty g = .ok g1 → Grows fromNode g g1
  | .Named toPkg name, g, g1, hs, h => by
    unfold addTypeEdges at h
    split at h
    · exact Grows_AddEdge hs fromNode name h
    · cases h; exact Grows.refl_grows fromNode hs
  | .Struct fields, g, g1, hs, h => by
    unfold addTypeEdges at h
    exact addTypeEdgesEach_grows fromNode fromPkg fields g g1 hs h
  | .Interface embeddeds methods, g, g1, hs, h => by
    unfold addTypeEdges at h
    cases h1 : addTypeEdgesEach fromNode fromPkg embeddeds g with
    | error p => rw [h1] at h; cases h
    | ok g2 =>
      simp only [h1] at h
      have r1 := addTypeEdgesEach_grows fromNode fromPkg embeddeds g g2 hs h1
      exact r1.trans_grows (addTypeEdgesEach_grows fromNode fromPkg methods g2 g1 r1.1 h)
  | .Signature params results recv, g, g1, hs, h => by
    unfold addTypeEdges at h
    cases h1 : addTypeEdgesEach fromNode fromPkg params g with
    | error p => rw [h1] at h; cases h
    | ok g2 =>
      simp only [h1] at h
      have r1 := addTypeEdgesEach_grows fromNode fromPkg params g g2 hs h1
      cases h2 : addTypeEdgesEach fromNode fromPkg results g2 with
      | error p => rw [h2] at h; cases h
      | ok g3 =>
        simp only [h2] at h
        have r2 := addTypeEdgesEach_grows fromNode fromPkg results g2 g3 r1.1 h2
        exact (r1.trans_grows r2).trans_grows (addTypeEdgesRecv_grows fromNode fromPkg recv g3 g1 r2.1 h)
  | .Map key elem, g, g1, hs, h => by
    unfold addTypeEdges at h
    cases h1 : addTypeEdges fromNode fromPkg key g with
    | error p => rw [h1] at h; cases h
    | ok g2 =>
      simp only [h1] at h
      have r1 := addTypeEdges_grows fromNode fromPkg key g g2 hs h1
      exact r1.trans_grows (addTypeEdges_grows fromNode fromPkg elem g2 g1 r1.1 h)
  | .Slice elem, g, g1, hs, h => by
    unfold addTypeEdges at h
    exact addTypeEdges_grows fromNode fromPkg elem g g1 hs h
  | .Pointer elem, g, g1, hs, h => by
    unfold addTypeEdges at h
    exact addTypeEdges_grows fromNode fromPkg elem g g1 hs h
  | .Array elem, g, g1, hs, h => by
    unfold addTypeEdges at h
    exact addTypeEdges_grows fromNode fromPkg elem g g1 hs h
  | .Chan elem, g, g1, hs, h => by
    unfold addTypeEdges at h
    exact addTypeEdges_grows fromNode fromPkg elem g g1 hs h
  | .Basic _, g, g1, hs, h => by
    unfold addTypeEdges at h
    cases h; exact Grows.refl_grows fromNode hs
  | .Tuple _, g, g1, _, h => by
    unfold addTypeEdges at h
    cases h

theorem addTypeEdgesEach_grows (fromNode : Node) (fromPkg : Option Package) :
    ∀ (ts : List GoType) (g g1 : Graph), g.Sync →
      addTypeEdgesEach fromNode fromPkg ts g = .ok g1 → Grows fromNode g g1
  | [], g, g1, hs, h => by
    unfold addTypeEdgesEach at h
    cases h; exact Grows.refl_grows fromNode hs
  | t :: ts, g, g1, hs, h => by
    unfold addTypeEdgesEach at h
    cases h1 : addTypeEdges fromNode fromPkg t g with
    | error p => rw [h1] at h; cases h
    | ok g2 =>
      simp only [h1] at h
      have r1 := addTypeEdges_grows fromNode fromPkg t g g2 hs h1
      exact r1.trans_grows (addTypeEdgesEach_grows fromNode fromPkg ts g2 g1 r1.1 h)

theorem addTypeEdgesRecv_grows (fromNode : Node) (fromPkg : Option Package) :
    ∀ (r : Option GoType) (g g1 : Graph), g.Sync →
      addTypeEdgesRecv fromNode fromPkg r g = .ok g1 → Grows fromNode g g1
  | none, g, g1, hs, h => by
    unfold addTypeEdgesRecv at h
    cases h; exact Grows.refl_grows fromNode hs
  | some t, g, g1, hs, h => by
    unfold addTypeEdgesRecv at h
    exact addTypeEdges_grows fromNode fromPkg t g g1 hs h

end

theorem Enumerated_AddNode {g : Graph} (hs : g.Sync) (m : Node) :
    Enumerated (fun n => n = m) g (g.AddNode m) :=
  ⟨Graph.Sync_AddNode hs m, Graph.Edges_AddNode hs m, fun n => by
    rw [Graph.mem_nodes_AddNode]; tauto⟩

theorem Enumerated.trans_enum {d1 d2 : Node → Prop} {g g1 g2 : Graph}
    (h1 : Enumerated d1 g g1) (h2 : Enumerated d2 g1 g2) :
    Enumerated (fun n => d1 n ∨ d2 n) g g2 :=
  ⟨h2.1, h2.2.1.trans h1.2.1, fun n => by rw [h2.2.2 n, h1.2.2 n]; tauto⟩

theorem Enumerated.congr {d1 d2 : Node → Prop} {g g1 : Graph}
    (h : Enumerated d1 g g1) (hd : ∀ n, d1 n ↔ d2 n) : Enumerated d2 g g1 :=
  ⟨h.1, h.2.1, fun n => by rw [h.2.2 n, hd n]⟩

theorem Enumerated.refl_enum {g : Graph} (hs : g.Sync) : Enumerated (fun _ => False) g g :=
  ⟨hs, rfl, fun n => by simp⟩

theorem Enumerated_foldl (node : Ident → Node) (Names : List Ident) :
    ∀ g : Graph, g.Sync →
      Enumerated (fun n => ∃ ident ∈ Names, n = node ident) g
        (Names.foldl (fun g ident => g.AddNode (node ident)) g) := by
  induction Names with
  | nil =>
    intro g hs
    exact (Enumerated.refl_enum hs).congr fun n => by simp
  | cons x xs ih =>
    intro g hs
    have h1 := Enumerated_AddNode hs (node x)
    have h2 := ih (g.AddNode (node x)) h1.1
    exact (h1.trans_enum h2).congr fun n => by simp

theorem forEach_enumerated {α ε : Type} (body : α → Graph → Except ε Graph)
    (decl : α → Node → Prop) (xs : List α)
    (hbody : ∀ x ∈ xs, ∀ g : Graph, g.Sync →
      ∃ g1, body x g = .ok g1 ∧ Enumerated (decl x) g g1) :
    ∀ g : Graph, g.Sync →
      ∃ g1, forEach body xs g = .ok g1 ∧ Enumerated (fun n => ∃ x ∈ xs, decl x n) g g1 := by
  induction xs with
  | nil =>
    intro g hs
    exact ⟨g, rfl, (Enumerated.refl_enum hs).congr fun n => by simp⟩
  | cons x xs ih =>
    intro g hs
    obtain ⟨g1, h1, e1⟩ := hbody x (List.mem_cons_self x xs) g hs
    obtain ⟨g2, h2, e2⟩ := ih (fun y hy => hbody y (List.mem_cons_of_mem x hy)) g1 e1.1
    refine ⟨g2, ?_, (e1.trans_enum e2).congr fun n => by simp⟩
    simp only [forEach, h1, h2]

theorem specNodes_enumerated (Tok : Token) (s : Spec) (hk : knownSpec s = true)
    (g : Graph) (hs : g.Sync) :
    ∃ g1, specNodes Tok s g = .ok g1 ∧ Enumerated (s.declares Tok) g g1 := by
  cases s with
  | ValueSpec Names =>
    refine ⟨_, rfl, ?_⟩
    refine (Enumerated_foldl _ Names g hs).congr fun n => ?_
    simp only [Spec.declares]
    cases Tok <;> simp
  | TypeSpec Name => exact ⟨_, rfl, Enumerated_AddNode hs _⟩
  | ImportSpec => exact ⟨g, rfl, Enumerated.refl_enum hs⟩
  | Other => simp [knownSpec] at hk

theorem declNodes_enumerated (d : Decl) (hk : knownDecl d = true)
    (g : Graph) (hs : g.Sync) :
    ∃ g1, declNodes d g = .ok g1 ∧ Enumerated d.declares g g1 := by
  cases d with
  | GenDecl Tok Specs =>
    simp only [knownDecl, List.all_eq_true] at hk
    obtain ⟨g1, h1, e1⟩ := forEach_enumerated (specNodes Tok) (Spec.declares Tok) Specs
      (fun s hsm g hs => specNodes_enumerated Tok s (hk s hsm) g hs) g hs
    exact ⟨g1, h1, e1⟩
  | FuncDecl td =>
    refine ⟨_, rfl, ?_⟩
    cases hr : td.Recv with
    | false =>
      simp only [if_true]
      exact (Enumerated_AddNode hs _).congr fun n => by simp [Decl.declares, hr]
    | true =>
      simp only [Bool.true_eq_false, if_false]
      exact (Enumerated.refl_enum hs).congr fun n => by simp [Decl.declares, hr]
  | BadDecl => simp [knownDecl] at hk

theorem enumerate_enumerated (pkg : PackageInfo) (hk : knownFiles pkg.Files = true) :
    ∃ g, enumerate pkg = .ok g ∧ Enumerated (Declares pkg.Files) NewGraph g := by
  simp only [knownFiles, List.all_eq_true] at hk
  exact forEach_enumerated (forEach declNodes) (fun decls n => ∃ d ∈ decls, d.declares n)
    pkg.Files
    (fun decls hdm g hs => forEach_enumerated declNodes Decl.declares decls
      (fun d hd g hs => declNodes_enumerated d (hk decls hdm d hd) g hs) g hs)
    NewGraph Graph.Sync_NewGraph

theorem forEach_all_known {α ε : Type} (body : α → Graph → Except ε Graph) (known : α → Bool)
    (hok : ∀ x g, known x = true → ∃ g1, body x g = .ok g1) :
    ∀ (xs : List α) (g : Graph), xs.all known = true → ∃ g1, forEach body xs g = .ok g1 := by
  intro xs
  induction xs with
  | nil => exact fun g _ => ⟨g, rfl⟩
  | cons x xs ih =>
    intro g hk
    simp only [List.all_cons, Bool.and_eq_true] at hk
    obtain ⟨g1, h1⟩ := hok x g hk.1
    obtain ⟨g2, h2⟩ := ih g1 hk.2
    exact ⟨g2, by simp only [forEach, h1, h2]⟩

theorem forEach_some_unknown {α ε : Type} (body : α → Graph → Except ε Graph)
    (known : α → Bool) (hok : ∀ x g, known x = true → ∃ g1, body x g = .ok g1)
    (herr : ∀ x g, known x = false → ∃ e, body x g = .error e) :
    ∀ (xs : List α) (g : Graph), xs.all known = false → ∃ e, forEach body xs g = .error e := by
  intro xs
  induction xs with
  | nil => intro g hk; simp at hk
  | cons x xs ih =>
    intro g hk
    cases hx : known x with
    | false =>
      obtain ⟨e, he⟩ := herr x g hx
      exact ⟨e, by simp only [forEach, he]⟩
    | true =>
      obtain ⟨g1, h1⟩ := hok x g hx
      have hk2 : xs.all known = false := by
        simpa only [List.all_cons, hx, Bool.true_and] using hk
      obtain ⟨e, he⟩ := ih g1 hk2
      exact ⟨e, by simp only [forEach, h1, he]⟩

theorem specNodes_known (Tok : Token) (s : Spec) (g : Graph) (hk : knownSpec s = true) :
    ∃ g1, specNodes Tok s g = .ok g1 := by
  cases s with
  | Other => simp [knownSpec] at hk
  | _ => exact ⟨_, rfl⟩

theorem specNodes_unknown (Tok : Token) (s : Spec) (g : Graph) (hk : knownSpec s = false) :
    ∃ e, specNodes Tok s g = .error e := by
  cases s with
  | Other => exact ⟨_, rfl⟩
  | _ => simp [knownSpec] at hk

theorem declNodes_known (d : Decl) (g : Graph) (hk : knownDecl d = true) :
    ∃ g1, declNodes d g = .ok g1 := by
  cases d with
  | GenDecl Tok Specs =>
    exact forEach_all_known (specNodes Tok) knownSpec (specNodes_known Tok) Specs g hk
  | FuncDecl td => exact ⟨_, rfl⟩
  | BadDecl => simp [knownDecl] at hk

theorem declNodes_unknown (d : Decl) (g : Graph) (hk : knownDecl d = false) :
    ∃ e, declNodes d g = .error e := by
  cases d with
  | GenDecl Tok Specs =>
    exact forEach_some_unknown (specNodes Tok) knownSpec (specNodes_known Tok)
      (specNodes_unknown Tok) Specs g hk
  | FuncDecl td => simp [knownDecl] at hk
  | BadDecl => exact ⟨_, rfl⟩

theorem enumerate_unknown (pkg : PackageInfo) (hk : knownFiles pkg.Files = false) :
    ∃ e, enumerate pkg = .error e :=
  forEach_some_unknown (forEach declNodes) (fun decls => decls.all knownDecl)
    (forEach_all_known declNodes knownDecl declNodes_known)
    (forEach_some_unknown declNodes knownDecl declNodes_known declNodes_unknown)
    pkg.Files NewGraph hk

theorem Grows.typeTargets {fromNode : Node} {g g1 : Graph} (h : Grows fromNode g g1)
    (ht : g.TypeTargets) : g1.TypeTargets := by
  intro e he
  rcases h.2.1 e he with h1 | ⟨_, h2⟩
  · exact ht e h1
  · exact h2

theorem addLookupEdges_grows (fromNode : Node) (fromPkg : Option Package)
    (ty : Option GoType) (g g1 : Graph) (hs : g.Sync)
    (h : addLookupEdges fromNode fromPkg ty g = .ok g1) : Grows fromNode g g1 := by
  cases ty with
  | none => simp only [addLookupEdges] at h; cases h; exact Grows.refl_grows fromNode hs
  | some t => exact addTypeEdges_grows fromNode fromPkg t g g1 hs h

theorem visitIdent_grows (fromNode : Node) (fromPkg : Option Package) (pkg : PackageInfo)
    (tn : Ident) (g g1 : Graph) (hs : g.Sync)
    (h : visitIdent fromNode fromPkg pkg tn g = .ok g1) : Grows fromNode g g1 := by
  unfold visitIdent at h
  cases h1 : addLookupEdges fromNode fromPkg (pkg.Types tn) g with
  | error p => rw [h1] at h; cases h
  | ok g2 =>
    simp only [h1] at h
    have r1 := addLookupEdges_grows _ _ _ _ _ hs h1
    cases h2 : addLookupEdges fromNode fromPkg ((pkg.Defs tn).map Object.Type_) g2 with
    | error p => rw [h2] at h; cases h
    | ok g3 =>
      simp only [h2] at h
      have r2 := addLookupEdges_grows _ _ _ _ _ r1.1 h2
      cases h3 : addLookupEdges fromNode fromPkg ((pkg.Uses tn).map Object.Type_) g3 with
      | error p => rw [h3] at h; cases h
      | ok g4 =>
        simp only [h3] at h
        have r3 := addLookupEdges_grows _ _ _ _ _ r2.1 h3
        exact ((r1.trans_grows r2).trans_grows r3).trans_grows (addLookupEdges_grows _ _ _ _ _ r3.1 h)

theorem forEach_grows {α : Type} (fromNode : Node) (body : α → Graph → Except Panic Graph)
    (xs : List α)
    (hbody : ∀ x ∈ xs, ∀ g g1 : Graph, g.Sync → body x g = .ok g1 → Grows fromNode g g1)
    (g g1 : Graph) (hs : g.Sync) (h : forEach body xs g = .ok g1) : Grows fromNode g g1 :=
  forEach_preserves (fun g2 => Grows fromNode g g2) body xs
    (fun x hx g2 g3 hP hb => hP.trans_grows (hbody x hx g2 g3 hP.1 hb)) g g1
    (Grows.refl_grows fromNode hs) h

/-- A run of `addFuncEdges` that returns has found the function object and
its signature, has computed the source node from the receiver, and has only
added edges from that node to `Type` nodes. -/
theorem addFuncEdges_grows (f : FuncDecl) (g g1 : Graph) (pkg : PackageInfo) (hs : g.Sync)
    (h : addFuncEdges f g pkg = .ok g1) :
    ∃ fo params results recv fromNode, pkg.Defs f.Name = some fo ∧
      fo.Type_ = .Signature params results recv ∧ funcFromNode fo recv = .ok fromNode ∧
      Grows fromNode g g1 := by
  unfold addFuncEdges at h
  cases hd : pkg.Defs f.Name with
  | none => rw [hd] at h; cases h
  | some fo =>
    simp only [hd] at h
    split at h
    · cases h
    · split at h
      · rename_i params results recv hty
        cases hn : funcFromNode fo recv with
        | error p => rw [hn] at h; cases h
        | ok fromNode =>
          simp only [hn] at h
          cases h1 : addTypeEdges fromNode fo.Pkg (.Signature params results recv) g with
          | error p => rw [h1] at h; cases h
          | ok g2 =>
            simp only [h1] at h
            have r1 := addTypeEdges_grows _ _ _ _ _ hs h1
            cases hbody : f.Body with
            | none => rw [hbody] at h; cases h
            | some body =>
              simp only [hbody] at h
              have r2 := forEach_grows fromNode (visitIdent fromNode fo.Pkg pkg) body
                (fun tn _ g3 g4 hs3 hb => visitIdent_grows _ _ _ _ _ _ hs3 hb) g2 g1 r1.1 h
              exact ⟨fo, params, results, recv, fromNode, rfl, hty, hn, r1.trans_grows r2⟩
      · cases h

theorem addDefEdges_grows (ident : Ident) (g g1 : Graph) (pkg : PackageInfo) (hs : g.Sync)
    (h : addDefEdges ident g pkg = .ok g1) : ∃ fromNode, Grows fromNode g g1 := by
  unfold addDefEdges at h
  cases hd : pkg.Defs ident with
  | none => rw [hd] at h; cases h
  | some to_ =>
    simp only [hd] at h
    cases hk : to_.kind with
    | Const =>
      simp only [hk] at h
      exact ⟨_, addTypeEdges_grows _ _ _ _ _ hs h⟩
    | Var =>
      simp only [hk] at h
      split at h
      · split at h
        · exact ⟨_, Grows_AddEdge hs _ _ h⟩
        · cases h; exact ⟨Node.Variable to_.Name, Grows.refl_grows _ hs⟩
      · cases h; exact ⟨Node.Variable to_.Name, Grows.refl_grows _ hs⟩
    | TypeName =>
      simp only [hk] at h
      exact ⟨_, addTypeEdges_grows _ _ _ _ _ hs h⟩
    | Func =>
      simp only [hk] at h
      cases h; exact ⟨Node.Function to_.Name, Grows.refl_grows _ hs⟩
    | Other => simp only [hk] at h; cases h

theorem orPanic_ok {r : Except Panic Graph} {g : Graph} (h : orPanic r = .ok g) : r = .ok g := by
  cases r with
  | error p => simp [orPanic] at h
  | ok g1 => simpa [orPanic] using h

theorem declEdges_typeTargets (pkg : PackageInfo) (d : Decl) (g g1 : Graph)
    (hP : g.Sync ∧ g.TypeTargets) (h : declEdges pkg d g = .ok g1) :
    g1.Sync ∧ g1.TypeTargets := by
  have hdef : ∀ (ident : Ident) (g2 g3 : Graph), (g2.Sync ∧ g2.TypeTargets) →
      orPanic (addDefEdges ident g2 pkg) = .ok g3 → (g3.Sync ∧ g3.TypeTargets) := by
    intro ident g2 g3 hP2 hb
    obtain ⟨fromNode, hgr⟩ := addDefEdges_grows ident g2 g3 pkg hP2.1 (orPanic_ok hb)
    exact ⟨hgr.1, hgr.typeTargets hP2.2⟩
  cases d with
  | GenDecl Tok Specs =>
    refine forEach_preserves (fun g2 => g2.Sync ∧ g2.TypeTargets) (specEdges pkg) Specs ?_
      g g1 hP h
    intro s _ g2 g3 hP2 hb
    cases s with
    | ValueSpec Names =>
      exact forEach_preserves (fun g2 => g2.Sync ∧ g2.TypeTargets) _ Names
        (fun ident _ g4 g5 hP4 hb4 => hdef ident g4 g5 hP4 hb4) g2 g3 hP2 hb
    | TypeSpec Name => exact hdef Name g2 g3 hP2 hb
    | ImportSpec => simp only [specEdges] at hb; cases hb; exact hP2
    | Other => simp only [specEdges] at hb; cases hb
  | FuncDecl td =>
    obtain ⟨_, _, _, _, fromNode, _, _, _, hgr⟩ :=
      addFuncEdges_grows td g g1 pkg hP.1 (orPanic_ok h)
    exact ⟨hgr.1, hgr.typeTargets hP.2⟩
  | BadDecl => simp only [declEdges] at h; cases h

theorem enumerate_ok_known (pkg : PackageInfo) (g : Graph) (h : enumerate pkg = .ok g) :
    knownFiles pkg.Files = true := by
  cases hk : knownFiles pkg.Files with
  | true => rfl
  | false =>
    obtain ⟨e, he⟩ := enumerate_unknown pkg hk
    rw [he] at h; cases h

theorem analyze_typeTargets (pkg : PackageInfo) (g : Graph)
    (h : analyze pkg = .ok (some g, none)) : g.Sync ∧ g.TypeTargets := by
  unfold analyze at h
  cases h0 : enumerate pkg with
  | error e => rw [h0] at h; simp at h
  | ok g0 =>
    simp only [h0] at h
    obtain ⟨g0', hg0, hen⟩ := enumerate_enumerated pkg (enumerate_ok_known pkg g0 h0)
    rw [h0] at hg0
    cases hg0
    have hP0 : g0.Sync ∧ g0.TypeTargets := by
      refine ⟨hen.1, fun e he => ?_⟩
      rw [hen.2.1] at he
      simp [Graph.Edges, NewGraph] at he
    cases h2 : forEach (forEach (declEdges pkg)) pkg.Files g0 with
    | error a => rw [h2] at h; cases a <;> simp at h
    | ok g1 =>
      rw [h2] at h
      simp only [Except.ok.injEq, Prod.mk.injEq, Option.some.injEq, and_true] at h
      subst h
      exact forEach_preserves (fun g2 => g2.Sync ∧ g2.TypeTargets) _ pkg.Files
        (fun decls _ g2 g3 hP2 hb =>
          forEach_preserves (fun g2 => g2.Sync ∧ g2.TypeTargets) _ decls
            (fun d _ g4 g5 hP4 hb4 => declEdges_typeTargets pkg d g4 g5 hP4 hb4) g2 g3 hP2 hb)
        g0 g1 hP0 h2

theorem useDecl_eq : addFuncEdges useDecl NewGraph scenarioPkg = .ok abGraph := rfl

theorem callPkg_eq : analyze callPkg = .ok (some callGraph, none) := rfl

theorem varPointer_eq : analyze varPointerPkg =
    .ok (some ((NewGraph.AddNode (Node.Type_ "T")).AddNode (Node.Variable "x")), none) := rfl

theorem tuplePkg_eq : analyze tuplePkg = .error .unsupportedTypeKind := rfl

theorem badPkg_eq : analyze badPkg = .ok (none, some .unknownDecl) := rfl

theorem declsPkg_eq : ∃ g, enumerate declsPkg = .ok g ∧ g.Nodes =
    {Node.Function "Bar", Node.Type_ "Foo", Node.Variable "w", Node.Variable "v",
      Node.Constant "c"} := ⟨_, rfl, rfl⟩

/-! ## The claims on the analysis -/

/-- C11: the code does not decompose the type of a variable. For the package
`type T struct{}; var x *T`, `addDefEdges` at `x` leaves the graph as the
enumeration pass built it and `analyze` returns a graph without any edge,
while `addTypeEdges` seeded with `Variable("x")` on the type `*T` of `x`
yields the edge `Variable("x") -> Type("T")`: the `*types.Var` case only
looks whether the type itself is a named type. -/
theorem C11_variable_type_not_decomposed :
    addDefEdges ⟨1, "x"⟩ ((NewGraph.AddNode (Node.Type_ "T")).AddNode (Node.Variable "x"))
        varPointerPkg
      = .ok ((NewGraph.AddNode (Node.Type_ "T")).AddNode (Node.Variable "x")) ∧
    analyze varPointerPkg =
      .ok (some ((NewGraph.AddNode (Node.Type_ "T")).AddNode (Node.Variable "x")), none) ∧
    ((NewGraph.AddNode (Node.Type_ "T")).AddNode (Node.Variable "x")).Edges = ∅ ∧
    (addTypeEdges (Node.Variable "x") pkgP (.Pointer (.Named pkgP "T"))
        ((NewGraph.AddNode (Node.Type_ "T")).AddNode (Node.Variable "x"))).toOption.map
      Graph.Edges = some {⟨Node.Variable "x", Node.Type_ "T"⟩} :=
  ⟨rfl, varPointer_eq, by decide, by decide⟩

/-- C12: when `addFuncEdges` returns on a graph built through the exported
interface, it has found the function object and its signature; if the
receiver of the signature is a named type `T` or a pointer to a named type
`T`, every edge of the result that was not there before has `From = Type(T)`
and every node `Function(m)` of the result was there before; if the signature
has no receiver, every new edge has `From = Function(name)`; and the
enumeration pass adds no node for a function declaration with a receiver. -/
theorem C12_method_attribution (pkg : PackageInfo) (f : FuncDecl) (g g1 : Graph)
    (hg : Reachable g) (hrun : addFuncEdges f g pkg = .ok g1) :
    ∃ fo params results recv, pkg.Defs f.Name = some fo ∧
      fo.Type_ = .Signature params results recv ∧
      (∀ toPkg T,
        recv = some (.Named toPkg T) ∨ recv = some (.Pointer (.Named toPkg T)) →
          (∀ e ∈ g1.Edges, e ∈ g.Edges ∨ e.From = Node.Type_ T) ∧
            ∀ m, g1.HasNode (Node.Function m) = true → g.HasNode (Node.Function m) = true) ∧
      (recv = none → ∀ e ∈ g1.Edges, e ∈ g.Edges ∨ e.From = Node.Function fo.Name) ∧
      (f.Recv = true → ∀ g0, declNodes (.FuncDecl f) g0 = .ok g0) := by
  obtain ⟨fo, params, results, recv, fromNode, hdef, hty, hfrom, hgr⟩ :=
    addFuncEdges_grows f g g1 pkg (Graph.Sync_of_Reachable hg) hrun
  refine ⟨fo, params, results, recv, hdef, hty, ?_, ?_, ?_⟩
  · intro toPkg T hrecv
    have hfn : fromNode = Node.Type_ T := by
      rcases hrecv with h | h <;>
        · rw [h] at hfrom
          simp only [funcFromNode, Except.ok.injEq] at hfrom
          exact hfrom.symm
    subst hfn
    refine ⟨fun e he => (hgr.2.1 e he).imp id fun h => h.1, fun m hm => ?_⟩
    rw [Graph.hasNode_iff] at hm ⊢
    rcases hgr.2.2 _ hm with h | h | ⟨t, h⟩
    · exact h
    · cases h
    · cases h
  · intro hnone
    rw [hnone] at hfrom
    simp only [funcFromNode, Except.ok.injEq] at hfrom
    subst hfrom
    exact fun e he => (hgr.2.1 e he).imp id fun h => h.1
  · intro hr g0
    simp [declNodes, hr]

/-- C12, at the method `func (a A) Use() { var x B; _ = x }` of the example
package, on the empty graph: the run returns the graph with the single edge
`A -> B`. -/
theorem C12_method_attribution_witness :
    Reachable NewGraph ∧ addFuncEdges useDecl NewGraph scenarioPkg = .ok abGraph ∧
      ∃ fo params results recv, scenarioPkg.Defs useDecl.Name = some fo ∧
        fo.Type_ = .Signature params results recv ∧
        (∀ toPkg T,
          recv = some (.Named toPkg T) ∨ recv = some (.Pointer (.Named toPkg T)) →
            (∀ e ∈ abGraph.Edges, e ∈ NewGraph.Edges ∨ e.From = Node.Type_ T) ∧
              ∀ m, abGraph.HasNode (Node.Function m) = true →
                NewGraph.HasNode (Node.Function m) = true) ∧
        (recv = none → ∀ e ∈ abGraph.Edges, e ∈ NewGraph.Edges ∨ e.From = Node.Function fo.Name) ∧
        (useDecl.Recv = true → ∀ g0, declNodes (.FuncDecl useDecl) g0 = .ok g0) :=
  ⟨Reachable.newGraph, useDecl_eq,
    C12_method_attribution scenarioPkg useDecl NewGraph abGraph Reachable.newGraph useDecl_eq⟩

/-- C13: for a package made only of value, type, import and function
declarations the enumeration pass of `analyze` returns a graph whose nodes are
exactly the declared ones: `Constant(x)` for the identifiers of const
declarations, `Variable(x)` for those of other value declarations, `Type(t)`
for type declarations and `Function(f)` for function declarations without a
receiver; the graph has no edge; and a type and a function of the same name
are two nodes. -/
theorem C13_enumeration_nodes (pkg : PackageInfo) (hk : knownFiles pkg.Files = true) :
    ∃ g, enumerate pkg = .ok g ∧ (∀ n, n ∈ g.Nodes ↔ Declares pkg.Files n) ∧
      g.Edges = ∅ ∧ ∀ s, Node.Type_ s ≠ Node.Function s := by
  obtain ⟨g, hg, hen⟩ := enumerate_enumerated pkg hk
  refine ⟨g, hg, fun n => ?_, ?_, fun s h => by cases h⟩
  · rw [Graph.Nodes, hen.2.2 n]
    simp [NewGraph]
  · rw [hen.2.1]
    simp [Graph.Edges, NewGraph]

/-- C13, at the example package with an import, a constant, two variables, a
type, a function and a method. -/
theorem C13_enumeration_nodes_witness :
    knownFiles declsPkg.Files = true ∧
      (∃ g, enumerate declsPkg = .ok g ∧ g.Nodes =
        {Node.Function "Bar", Node.Type_ "Foo", Node.Variable "w", Node.Variable "v",
          Node.Constant "c"}) ∧
      ∃ g, enumerate declsPkg = .ok g ∧ (∀ n, n ∈ g.Nodes ↔ Declares declsPkg.Files n) ∧
        g.Edges = ∅ ∧ ∀ s, Node.Type_ s ≠ Node.Function s :=
  ⟨by decide, declsPkg_eq, C13_enumeration_nodes declsPkg (by decide)⟩

/-- C19: every edge of a graph that `analyze` returns ends at a `Type` node;
no edge ends at a `Function`, `Constant` or `Variable` node. -/
theorem C19_edges_end_at_types (pkg : PackageInfo) (g : Graph)
    (h : analyze pkg = .ok (some g, none)) :
    ∀ e ∈ g.Edges, (∃ t, e.To = Node.Type_ t) ∧
      ∀ s, e.To ≠ Node.Function s ∧ e.To ≠ Node.Constant s ∧ e.To ≠ Node.Variable s := by
  intro e he
  obtain ⟨t, ht⟩ := (analyze_typeTargets pkg g h).2 e he
  refine ⟨⟨t, ht⟩, fun s => ?_⟩
  rw [ht]
  refine ⟨?_, ?_, ?_⟩ <;> exact fun hc => by cases hc

/-- C19, at the package `type T struct{}; var v T; func h() {};
func f() { h(); _ = v }`: the edges are `v -> T` and `f -> T`, and `f` has no
edge to `h` or to `v`. -/
theorem C19_edges_end_at_types_witness :
    analyze callPkg = .ok (some callGraph, none) ∧
      callGraph.Edges =
        {⟨Node.Variable "v", Node.Type_ "T"⟩, ⟨Node.Function "f", Node.Type_ "T"⟩} ∧
      ∀ e ∈ callGraph.Edges, (∃ t, e.To = Node.Type_ t) ∧
        ∀ s, e.To ≠ Node.Function s ∧ e.To ≠ Node.Constant s ∧ e.To ≠ Node.Variable s :=
  ⟨callPkg_eq, by decide, C19_edges_end_at_types callPkg callGraph callPkg_eq⟩

/-! ## Lemmas on type values held by reference -/

mutual

theorem addTypeEdges_unsupported (fromNode : Node) (fromPkg : Option Package) :
    ∀ (ty : GoType) (g : Graph), g.Sync → supported ty = false →
      addTypeEdges fromNode fromPkg ty g = .error .unsupportedTypeKind
  | .Named _ _, _, _, h => by simp [supported] at h
  | .Struct fields, g, hs, h => by
    simp only [supported] at h
    simpa only [addTypeEdges] using addTypeEdgesEach_unsupported fromNode fromPkg fields g hs h
  | .Interface embeddeds methods, g, hs, h => by
    simp only [supported] at h
    unfold addTypeEdges
    cases he : supportedEach embeddeds with
    | false => rw [addTypeEdgesEach_unsupported fromNode fromPkg embeddeds g hs he]
    | true =>
      obtain ⟨g1, h1, hs1, _⟩ := addTypeEdgesEach_sound fromNode fromPkg embeddeds g hs he
      rw [he, Bool.true_and] at h
      simp only [h1]
      exact addTypeEdgesEach_unsupported fromNode fromPkg methods g1 hs1 h
  | .Signature params results recv, g, hs, h => by
    simp only [supported] at h
    unfold addTypeEdges
    cases hp : supportedEach params with
    | false => rw [addTypeEdgesEach_unsupported fromNode fromPkg params g hs hp]
    | true =>
      obtain ⟨g1, h1, hs1, _⟩ := addTypeEdgesEach_sound fromNode fromPkg params g hs hp
      simp only [h1]
      cases hr : supportedEach results with
      | false => rw [addTypeEdgesEach_unsupported fromNode fromPkg results g1 hs1 hr]
      | true =>
        obtain ⟨g2, h2, hs2, _⟩ := addTypeEdgesEach_sound fromNode fromPkg results g1 hs1 hr
        rw [hp, hr, Bool.true_and, Bool.true_and] at h
        simp only [h2]
        exact addTypeEdgesRecv_unsupported fromNode fromPkg recv g2 hs2 h
  | .Map key elem, g, hs, h => by
    simp only [supported] at h
    unfold addTypeEdges
    cases hk : supported key with
    | false => rw [addTypeEdges_unsupported fromNode fromPkg key g hs hk]
    | true =>
      obtain ⟨g1, h1, hs1, _⟩ := addTypeEdges_sound fromNode fromPkg key g hs hk
      rw [hk, Bool.true_and] at h
      simp only [h1]
      exact addTypeEdges_unsupported fromNode fromPkg elem g1 hs1 h
  | .Slice elem, g, hs, h => by
    simp only [supported] at h
    simpa only [addTypeEdges] using addTypeEdges_unsupported fromNode fromPkg elem g hs h
  | .Pointer elem, g, hs, h => by
    simp only [supported] at h
    simpa only [addTypeEdges] using addTypeEdges_unsupported fromNode fromPkg elem g hs h
  | .Array elem, g, hs, h => by
    simp only [supported] at h
    simpa only [addTypeEdges] using addTypeEdges_unsupported fromNode fromPkg elem g hs h
  | .Chan elem, g, hs, h => by
    simp only [supported] at h
    simpa only [addTypeEdges] using addTypeEdges_unsupported fromNode fromPkg elem g hs h
  | .Basic _, _, _, h => by simp [supported] at h
  | .Tuple _, _, _, _ => by simp only [addTypeEdges]

theorem addTypeEdgesEach_unsupported (fromNode : Node) (fromPkg : Option Package) :
    ∀ (ts : List GoType) (g : Graph), g.Sync → supportedEach ts = false →
      addTypeEdgesEach fromNode fromPkg ts g = .error .unsupportedTypeKind
  | [], _, _, h => by simp [supportedEach] at h
  | t :: ts, g, hs, h => by
    simp only [supportedEach] at h
    unfold addTypeEdgesEach
    cases ht : supported t with
    | false => rw [addTypeEdges_unsupported fromNode fromPkg t g hs ht]
    | true =>
      obtain ⟨g1, h1, hs1, _⟩ := addTypeEdges_sound fromNode fromPkg t g hs ht
      rw [ht, Bool.true_and] at h
      simp only [h1]
      exact addTypeEdgesEach_unsupported fromNode fromPkg ts g1 hs1 h

theorem addTypeEdgesRecv_unsupported (fromNode : Node) (fromPkg : Option Package) :
    ∀ (r : Option GoType) (g : Graph), g.Sync → supportedRecv r = false →
      addTypeEdgesRecv fromNode fromPkg r g = .error .unsupportedTypeKind
  | none, _, _, h => by simp [supportedRecv] at h
  | some t, g, hs, h => by
    simp only [supportedRecv] at h
    simpa only [addTypeEdgesRecv] using addTypeEdges_unsupported fromNode fromPkg t g hs h

end

theorem eachAt_unfoldEach (fromNode : Node) (fromPkg : Option Package)
    (visitT : TypeRef → Option GoType)
    (visitG : TypeRef → Graph → Option (Except Panic Graph))
    (h : ∀ r t g, visitT r = some t → visitG r g = some (addTypeEdges fromNode fromPkg t g)) :
    ∀ (rs : List TypeRef) (ts : List GoType) (g : Graph), unfoldEach visitT rs = some ts →
      eachAt visitG rs g = some (addTypeEdgesEach fromNode fromPkg ts g) := by
  intro rs
  induction rs with
  | nil =>
    intro ts g hu
    simp only [unfoldEach, Option.some.injEq] at hu
    subst hu
    simp only [eachAt, addTypeEdgesEach]
  | cons r rs ih =>
    intro ts g hu
    simp only [unfoldEach] at hu
    cases hr : visitT r with
    | none => simp [hr] at hu
    | some t =>
      cases hrs : unfoldEach visitT rs with
      | none => simp [hr, hrs] at hu
      | some ts1 =>
        simp only [hr, hrs, Option.some.injEq] at hu
        subst hu
        simp only [eachAt, addTypeEdgesEach, h r t g hr]
        cases hres : addTypeEdges fromNode fromPkg t g with
        | error p => rfl
        | ok g1 => exact ih ts1 g1 hrs

/-- On a type value that unfolds into a tree within the depth `fuel`, the
run on the references finishes within that depth and gives the result of
`addTypeEdges` on the tree. -/
theorem addTypeEdgesFuel_unfoldAt (heap : TypeHeap) (fromNode : Node)
    (fromPkg : Option Package) :
    ∀ (fuel : Nat) (r : TypeRef) (t : GoType) (g : Graph), unfoldAt heap fuel r = some t →
      addTypeEdgesFuel heap fromNode fromPkg fuel r g =
        some (addTypeEdges fromNode fromPkg t g) := by
  intro fuel
  induction fuel with
  | zero => intro r t g h; simp [unfoldAt] at h
  | succ fuel ih =>
    intro r t g h
    have hEach := eachAt_unfoldEach fromNode fromPkg (unfoldAt heap fuel)
      (addTypeEdgesFuel heap fromNode fromPkg fuel) ih
    unfold unfoldAt at h
    unfold addTypeEdgesFuel
    cases hn : heap r with
    | Named pkg name =>
      simp only [hn, Option.some.injEq] at h
      subst h
      simp only [addTypeEdges]
    | Struct fields =>
      simp only [hn, Option.map_eq_some'] at h
      obtain ⟨ts, hts, rfl⟩ := h
      simp only [addTypeEdges, hEach fields ts g hts]
    | Interface embeddeds methods =>
      simp only [hn] at h
      cases he : unfoldEach (unfoldAt heap fuel) embeddeds with
      | none => simp [he] at h
      | some es =>
        cases hm : unfoldEach (unfoldAt heap fuel) methods with
        | none => simp [he, hm] at h
        | some ms =>
          simp only [he, hm, Option.some.injEq] at h
          subst h
          simp only [addTypeEdges, hEach embeddeds es g he]
          cases hres : addTypeEdgesEach fromNode fromPkg es g with
          | error p => rfl
          | ok g1 => exact hEach methods ms g1 hm
    | Signature params results recv =>
      simp only [hn] at h
      cases hp : unfoldEach (unfoldAt heap fuel) params with
      | none => simp [hp] at h
      | some ps =>
        cases hr : unfoldEach (unfoldAt heap fuel) results with
        | none => simp [hp, hr] at h
        | some rs =>
          simp only [hp, hr] at h
          simp only [hEach params ps g hp]
          cases recv with
          | none =>
            simp only [Option.some.injEq] at h
            subst h
            simp only [addTypeEdges]
            cases hres : addTypeEdgesEach fromNode fromPkg ps g with
            | error p => rfl
            | ok g1 =>
              simp only [hEach results rs g1 hr]
              cases hres2 : addTypeEdgesEach fromNode fromPkg rs g1 with
              | error p => rfl
              | ok g2 => simp only [addTypeEdgesRecv]
          | some rt =>
            simp only [Option.map_eq_some'] at h
            obtain ⟨t1, ht1, rfl⟩ := h
            simp only [addTypeEdges]
            cases hres : addTypeEdgesEach fromNode fromPkg ps g with
            | error p => rfl
            | ok g1 =>
              simp only [hEach results rs g1 hr]
              cases hres2 : addTypeEdgesEach fromNode fromPkg rs g1 with
              | error p => rfl
              | ok g2 => simp only [addTypeEdgesRecv, ih rt t1 g2 ht1]
    | Map key elem =>
      simp only [hn] at h
      cases hk : unfoldAt heap fuel key with
      | none => simp [hk] at h
      | some k =>
        cases he : unfoldAt heap fuel elem with
        | none => simp [hk, he] at h
        | some e =>
          simp only [hk, he, Option.some.injEq] at h
          subst h
          simp only [addTypeEdges, ih key k g hk]
          cases hres : addTypeEdges fromNode fromPkg k g with
          | error p => rfl
          | ok g1 => exact ih elem e g1 he
    | Slice elem =>
      simp only [hn, Option.map_eq_some'] at h
      obtain ⟨t1, ht1, rfl⟩ := h
      simp only [addTypeEdges, ih elem t1 g ht1]
    | Pointer elem =>
      simp only [hn, Option.map_eq_some'] at h
      obtain ⟨t1, ht1, rfl⟩ := h
      simp only [addTypeEdges, ih elem t1 g ht1]
    | Array elem =>
      simp only [hn, Option.map_eq_some'] at h
      obtain ⟨t1, ht1, rfl⟩ := h
      simp only [addTypeEdges, ih elem t1 g ht1]
    | Chan elem =>
      simp only [hn, Option.map_eq_some'] at h
      obtain ⟨t1, ht1, rfl⟩ := h
      simp only [addTypeEdges, ih elem t1 g ht1]
    | Basic name =>
      simp only [hn, Option.some.injEq] at h
      subst h
      simp only [addTypeEdges]
    | Tuple vars =>
      simp only [hn, Option.map_eq_some'] at h
      obtain ⟨ts, hts, rfl⟩ := h
      simp only [addTypeEdges]

/-- On the type value of `interface{ M() }` no depth is enough: neither the
run at the interface nor the run at the signature of its method finishes. -/
theorem addTypeEdgesFuel_anonInterface (fromNode : Node) (fromPkg : Option Package) :
    ∀ (fuel : Nat) (g : Graph),
      addTypeEdgesFuel anonInterfaceHeap fromNode fromPkg fuel 0 g = none ∧
        addTypeEdgesFuel anonInterfaceHeap fromNode fromPkg fuel 1 g = none := by
  intro fuel
  induction fuel with
  | zero => intro g; exact ⟨rfl, rfl⟩
  | succ fuel ih =>
    intro g
    constructor
    · simp only [addTypeEdgesFuel, anonInterfaceHeap, eachAt, (ih g).2]
    · simp only [addTypeEdgesFuel, anonInterfaceHeap, eachAt, (ih g).1]

theorem selfStruct_unfold :
    unfoldAt selfStructHeap 3 0 = some (.Struct [.Pointer (.Named pkgP "A")]) := rfl

/-! ## The claim on termination -/

/-- C17, the claim as stated fails: on the type value of `interface{ M() }`,
which contains itself through the receiver of its method and not through a
named type, `addTypeEdges` has no result at any depth of recursion. -/
theorem C17_anonymous_interface_never_returns :
    ¬ ∃ fuel res,
      addTypeEdgesFuel anonInterfaceHeap (Node.Function "f") pkgP fuel 0 NewGraph = some res := by
  rintro ⟨fuel, res, h⟩
  rw [(addTypeEdgesFuel_anonInterface (Node.Function "f") pkgP fuel NewGraph).1] at h
  cases h

theorem unfoldEach_mono (v1 v2 : TypeRef → Option GoType)
    (h : ∀ r t, v1 r = some t → v2 r = some t) :
    ∀ (rs : List TypeRef) (ts : List GoType), unfoldEach v1 rs = some ts →
      unfoldEach v2 rs = some ts := by
  intro rs
  induction rs with
  | nil => intro ts hu; simpa only [unfoldEach] using hu
  | cons r rs ih =>
    intro ts hu
    simp only [unfoldEach] at hu ⊢
    cases hr : v1 r with
    | none => simp [hr] at hu
    | some t =>
      cases hrs : unfoldEach v1 rs with
      | none => simp [hr, hrs] at hu
      | some ts1 =>
        simp only [hr, hrs] at hu
        simp only [h r t hr, ih ts1 hrs]
        exact hu

/-- A type value that unfolds within a depth unfolds to the same tree within
the next depth. -/
theorem unfoldAt_succ (heap : TypeHeap) :
    ∀ (fuel : Nat) (r : TypeRef) (t : GoType), unfoldAt heap fuel r = some t →
      unfoldAt heap (fuel + 1) r = some t := by
  intro fuel
  induction fuel with
  | zero => intro r t h; simp [unfoldAt] at h
  | succ fuel ih =>
    intro r t h
    have hEach := unfoldEach_mono (unfoldAt heap fuel) (unfoldAt heap (fuel + 1)) ih
    unfold unfoldAt at h ⊢
    cases hn : heap r with
    | Named pkg name => simpa only [hn] using h
    | Struct fields =>
      simp only [hn, Option.map_eq_some'] at h ⊢
      obtain ⟨ts, hts, rfl⟩ := h
      exact ⟨ts, hEach fields ts hts, rfl⟩
    | Interface embeddeds methods =>
      simp only [hn] at h ⊢
      cases he : unfoldEach (unfoldAt heap fuel) embeddeds with
      | none => simp [he] at h
      | some es =>
        cases hm : unfoldEach (unfoldAt heap fuel) methods with
        | none => simp [he, hm] at h
        | some ms =>
          simp only [he, hm] at h
          simp only [hEach embeddeds es he, hEach methods ms hm]
          exact h
    | Signature params results recv =>
      simp only [hn] at h ⊢
      cases hp : unfoldEach (unfoldAt heap fuel) params with
      | none => simp [hp] at h
      | some ps =>
        cases hr : unfoldEach (unfoldAt heap fuel) results with
        | none => simp [hp, hr] at h
        | some rs =>
          simp only [hp, hr] at h
          simp only [hEach params ps hp, hEach results rs hr]
          cases recv with
          | none => exact h
          | some rt =>
            simp only [Option.map_eq_some'] at h ⊢
            obtain ⟨t1, ht1, rfl⟩ := h
            exact ⟨t1, ih rt t1 ht1, rfl⟩
    | Map key elem =>
      simp only [hn] at h ⊢
      cases hk : unfoldAt heap fuel key with
      | none => simp [hk] at h
      | some k =>
        cases he : unfoldAt heap fuel elem with
        | none => simp [hk, he] at h
        | some e =>
          simp only [hk, he] at h
          simp only [ih key k hk, ih elem e he]
          exact h
    | Slice elem =>
      simp only [hn, Option.map_eq_some'] at h ⊢
      obtain ⟨t1, ht1, rfl⟩ := h
      exact ⟨t1, ih elem t1 ht1, rfl⟩
    | Pointer elem =>
      simp only [hn, Option.map_eq_some'] at h ⊢
      obtain ⟨t1, ht1, rfl⟩ := h
      exact ⟨t1, ih elem t1 ht1, rfl⟩
    | Array elem =>
      simp only [hn, Option.map_eq_some'] at h ⊢
      obtain ⟨t1, ht1, rfl⟩ := h
      exact ⟨t1, ih elem t1 ht1, rfl⟩
    | Chan elem =>
      simp only [hn, Option.map_eq_some'] at h ⊢
      obtain ⟨t1, ht1, rfl⟩ := h
      exact ⟨t1, ih elem t1 ht1, rfl⟩
    | Basic name => simpa only [hn] using h
    | Tuple vars =>
      simp only [hn, Option.map_eq_some'] at h ⊢
      obtain ⟨ts, hts, rfl⟩ := h
      exact ⟨ts, hEach vars ts hts, rfl⟩

theorem unfoldAt_mono (heap : TypeHeap) (fuel fuel1 : Nat) (hle : fuel ≤ fuel1)
    (r : TypeRef) (t : GoType) (h : unfoldAt heap fuel r = some t) :
    unfoldAt heap fuel1 r = some t := by
  induction hle with
  | refl => exact h
  | step _ ih => exact unfoldAt_succ heap _ r t ih

/-- With more depth than a finite unfolding needs, the run on the references
gives the same result: that of `addTypeEdges` on the tree. -/
theorem addTypeEdgesFuel_of_unfold (heap : TypeHeap) (fromNode : Node)
    (fromPkg : Option Package) (fuel fuel1 : Nat) (hle : fuel ≤ fuel1) (r : TypeRef)
    (t : GoType) (g : Graph) (h : unfoldAt heap fuel r = some t) :
    addTypeEdgesFuel heap fromNode fromPkg fuel1 r g =
      some (addTypeEdges fromNode fromPkg t g) :=
  addTypeEdgesFuel_unfoldAt heap fromNode fromPkg fuel1 r t g
    (unfoldAt_mono heap fuel fuel1 hle r t h)

/-! ## Lemmas on the packages on which extraction meets no failure -/

theorem listNodeHeap_unfold : unfoldAt listNodeHeap 3 0 = some listNodeType := rfl

theorem listNodeHeap_eq :
    addTypeEdgesFuel listNodeHeap (Node.Type_ "A") (some ⟨"p"⟩) 3 0 NewGraph =
      some (.ok abGraph) := rfl

/-! ## The claims on the decomposition of a type value and on the outcomes of the analysis -/

/-- C1, the claim as stated fails: the type value of `interface{ M() }` is
built from the shapes interface and signature only, and `addTypeEdges` on it
leaves no graph at all, at any depth of recursion. -/
theorem C1_interface_literal_leaves_no_graph :
    anonInterfaceHeap 0 = .Interface [] [1] ∧
      anonInterfaceHeap 1 = .Signature [] [] (some 0) ∧
      ¬ ∃ fuel res,
        addTypeEdgesFuel anonInterfaceHeap (Node.Variable "x") pkgP fuel 0 abGraph
          = some res := by
  refine ⟨rfl, rfl, ?_⟩
  rintro ⟨fuel, res, h⟩
  rw [(addTypeEdgesFuel_anonInterface (Node.Variable "x") pkgP fuel abGraph).1] at h
  cases h

/-- C1, amended: on a graph built through the exported interface and a type
value that unfolds into a finite tree of the ten supported shapes, the named
types being leaves, `addTypeEdges` returns at every depth of recursion from
that of the tree on, and the edges of the resulting graph are exactly the
previous edges together with the edges `fromNode -> Type(name)` for the named
types `name` occurring in the tree whose package is `fromPkg` and whose node
is not `fromNode` itself; named types of other packages and basic types add
nothing. -/
theorem C1_addTypeEdges_edges_on_trees (heap : TypeHeap) (fromNode : Node)
    (fromPkg : Option Package) (fuel fuel1 : Nat) (r : TypeRef) (ty : GoType) (g : Graph)
    (hg : Reachable g) (hunfold : unfoldAt heap fuel r = some ty)
    (hty : supported ty = true) (hle : fuel ≤ fuel1) :
    ∃ g1, addTypeEdgesFuel heap fromNode fromPkg fuel1 r g = some (.ok g1) ∧
      ∀ e : Edge, e ∈ g1.Edges ↔
        e ∈ g.Edges ∨
          (e.From = fromNode ∧
            ∃ name, (fromPkg, name) ∈ namedTypes ty ∧ e.To = Node.Type_ name ∧
              Node.Type_ name ≠ fromNode) := by
  obtain ⟨g1, h1, _, he⟩ :=
    addTypeEdges_sound fromNode fromPkg ty g (Graph.Sync_of_Reachable hg) hty
  refine ⟨g1, ?_, he⟩
  rw [addTypeEdgesFuel_of_unfold heap fromNode fromPkg fuel fuel1 hle r ty g hunfold, h1]

/-- C1, amended, at the underlying type of
`type A struct { b B; next *A; c q.C; n int }` seeded with `Type("A")` of
package `p` on the empty graph, at the depths 3 and 7: the result is the
graph with the single edge `A -> B`. -/
theorem C1_addTypeEdges_edges_on_trees_witness :
    Reachable NewGraph ∧ unfoldAt listNodeHeap 3 0 = some listNodeType ∧
      supported listNodeType = true ∧
      addTypeEdgesFuel listNodeHeap (Node.Type_ "A") (some ⟨"p"⟩) 3 0 NewGraph
        = some (.ok abGraph) ∧
      ∃ g1, addTypeEdgesFuel listNodeHeap (Node.Type_ "A") (some ⟨"p"⟩) 7 0 NewGraph
          = some (.ok g1) ∧
        ∀ e : Edge, e ∈ g1.Edges ↔
          e ∈ NewGraph.Edges ∨
            (e.From = Node.Type_ "A" ∧
              ∃ name, (some (Package.mk "p"), name) ∈ namedTypes listNodeType ∧
                e.To = Node.Type_ name ∧ Node.Type_ name ≠ Node.Type_ "A") :=
  ⟨Reachable.newGraph, listNodeHeap_unfold, by decide, listNodeHeap_eq,
    C1_addTypeEdges_edges_on_trees listNodeHeap (Node.Type_ "A") (some ⟨"p"⟩) 3 7 0
      listNodeType NewGraph Reachable.newGraph listNodeHeap_unfold (by decide) (by decide)⟩

/-- C17, amended: on a type value that unfolds into a finite tree with the
named types as leaves (a value in which every cycle passes through a named
type), `addTypeEdges` returns, without a visited set, at every depth of
recursion from that of the tree on, the result that it has on the tree; on a
graph built through the exported interface that result is a graph when the
tree is built from the ten supported shapes, and else the panic of the
default branch of the type switch, and no other failure; and for the
underlying type `struct { next *T }` of a declaration of `T`, seeded with
`Type(T)` of the same package, the result is the graph unchanged. -/
theorem C17_terminates_on_trees (heap : TypeHeap) (fromNode : Node)
    (fromPkg : Option Package) (fuel fuel1 : Nat) (r : TypeRef) (t : GoType) (g : Graph)
    (hg : Reachable g) (ht : unfoldAt heap fuel r = some t) (hle : fuel ≤ fuel1) :
    addTypeEdgesFuel heap fromNode fromPkg fuel1 r g =
        some (addTypeEdges fromNode fromPkg t g) ∧
      (supported t = true → ∃ g1, addTypeEdges fromNode fromPkg t g = .ok g1) ∧
      (supported t = false →
        addTypeEdges fromNode fromPkg t g = .error .unsupportedTypeKind) ∧
      ∀ name, t = .Struct [.Pointer (.Named fromPkg name)] → fromNode = Node.Type_ name →
        addTypeEdgesFuel heap fromNode fromPkg fuel1 r g = some (.ok g) := by
  have hs := Graph.Sync_of_Reachable hg
  have hrun := addTypeEdgesFuel_of_unfold heap fromNode fromPkg fuel fuel1 hle r t g ht
  refine ⟨hrun, ?_, ?_, ?_⟩
  · intro hsup
    obtain ⟨g1, h1, _⟩ := addTypeEdges_sound fromNode fromPkg t g hs hsup
    exact ⟨g1, h1⟩
  · exact addTypeEdges_unsupported fromNode fromPkg t g hs
  · intro name hstruct hfrom
    rw [hrun, hstruct, hfrom]
    simp [addTypeEdges, addTypeEdgesEach, Graph.AddEdge_self]

/-- C17, amended, at the underlying type of `type A struct { next *A }`
seeded with `Type("A")` on the empty graph, at the depths 3 and 5: the run
returns the empty graph, the self-edge being dropped. -/
theorem C17_terminates_on_trees_witness :
    Reachable NewGraph ∧
      unfoldAt selfStructHeap 3 0 = some (.Struct [.Pointer (.Named pkgP "A")]) ∧
      addTypeEdgesFuel selfStructHeap (Node.Type_ "A") pkgP 3 0 NewGraph = some (.ok NewGraph) ∧
      addTypeEdgesFuel selfStructHeap (Node.Type_ "A") pkgP 5 0 NewGraph = some (.ok NewGraph) :=
  ⟨Reachable.newGraph, selfStruct_unfold,
    (C17_terminates_on_trees selfStructHeap (Node.Type_ "A") pkgP 3 3 0 _ NewGraph
      Reachable.newGraph selfStruct_unfold (Nat.le_refl 3)).2.2.2 "A" rfl rfl,
    (C17_terminates_on_trees selfStructHeap (Node.Type_ "A") pkgP 3 5 0 _ NewGraph
      Reachable.newGraph selfStruct_unfold (by decide)).1⟩

end Indeps
